import Mathlib

/-!
Verification development for the DukValue variant class (dukglue).

The C++ source (a single header) defines a variant class `DukValue` over the
Duktape value kinds {undefined, null, boolean, number, string, object, pointer},
with shared-ownership reference counting over a persisted-reference slot array
("ref array") kept in the Duktape heap stash.  We shallowly embed:

  - the engine (`duk_context`): an evaluation stack of engine values plus the
    lazily created ref array (the only heap-stash object this code touches);
  - the `DukValue` record with its fields `mContext`, `mType`, `mPOD`,
    `mString`, `mRefCount`;
  - a heap of shared reference counters (`new int` / `delete`), modelled as an
    association list from addresses to integer counter values;
  - every operation of the source: `copy_from_stack`, `take_from_stack`,
    `push`, the copy/move constructors and `operator=`, `operator==`, the typed
    accessors, `push_ref_array`, `stash_ref`, `free_ref`, `release_ref_count`.

Numbers: the C++ payload is a `double`; we model it as `ℚ` (the claims under
check concern truncation, payload equality and free-list bookkeeping, none of
which depend on binary floating-point rounding; NaN behaviour is outside this
model).  `float as_float()` is not modelled, since single-precision rounding
has no counterpart in the rational model.  Machine integer conversions are
modelled with explicit wrap-around (mod 2^32), the universal two's-complement
behaviour of the targeted platforms.

Strings are byte lists (`std::string` owns raw bytes, embedded zeros allowed).
Pointers (`void*`) are addresses modelled as `Nat`, with 0 for `NULL`.
A fatal `assert(false)` is modelled by returning `none` from the operation.
-/

/-- Engine (Duktape) values as they sit on the evaluation stack or in the
ref array.  `refArrayRef` is the reference to the ref-array object itself,
which this code pushes transiently; general script objects are identified by
an id.  (Buffers and lightfuncs are commented out of the source `Type` enum
and are not part of the model.) -/
inductive DukVal : Type where
  | undefined : DukVal
  | null : DukVal
  | boolean (b : Bool) : DukVal
  | number (q : ℚ) : DukVal
  | string (s : List UInt8) : DukVal
  | object (id : Nat) : DukVal
  | pointer (p : Nat) : DukVal
  | refArrayRef : DukVal
deriving DecidableEq

/-- The `DukValue::Type` enum of the source (values taken from the
`DUK_TYPE_*` constants; buffer/lightfunc are commented out in the source). -/
inductive DukType : Type where
  | UNDEFINED : DukType
  | NULLREF : DukType
  | BOOLEAN : DukType
  | NUMBER : DukType
  | STRING : DukType
  | OBJECT : DukType
  | POINTER : DukType
deriving DecidableEq

/-- Numeric `DUK_TYPE_*` codes (used for the type-mask check). -/
def DukType.code : DukType → Nat
  | .UNDEFINED => 1
  | .NULLREF => 2
  | .BOOLEAN => 3
  | .NUMBER => 4
  | .STRING => 5
  | .OBJECT => 6
  | .POINTER => 8

/-- `duk_get_type` of an engine value. -/
def dukTypeOf : DukVal → DukType
  | .undefined => .UNDEFINED
  | .null => .NULLREF
  | .boolean _ => .BOOLEAN
  | .number _ => .NUMBER
  | .string _ => .STRING
  | .object _ => .OBJECT
  | .pointer _ => .POINTER
  | .refArrayRef => .OBJECT

/-- The type-mask bit of a value, as used by `duk_check_type_mask`
(`DUK_TYPE_MASK_x = 1 << DUK_TYPE_x`). -/
def typeMask (v : DukVal) : Nat := 1 <<< (dukTypeOf v).code

/-- `duk_get_uint` applied to an engine value: a number is truncated and
clamped at zero; the free-list entries this code reads are always exact
nonnegative integers.  Non-numbers coerce to 0 in this model (duktape
ToNumber coercion of other types is never exercised by the source). -/
def dukGetUInt : DukVal → Nat
  | .number q => if q < 0 then 0 else (⌊q⌋).toNat
  | _ => 0

/-- The engine: its evaluation stack (list, last element = stack top) and the
`dukglue_dukvalue_refs` array in the heap stash (`none` until lazily created
by `push_ref_array`).  `id` identifies the engine instance; it is the value
stored in `mContext` (the `duk_context*` of a value, compared by identity). -/
structure Engine : Type where
  id : Nat
  stack : List DukVal
  refs : Option (List DukVal)
deriving DecidableEq

/-- Normalize a duktape stack index (negative = from the top) and read the
value there; `none` when the index is out of range (`DUK_TYPE_NONE`). -/
def idxVal (s : List DukVal) (idx : Int) : Option DukVal :=
  let n : Int := if idx < 0 then (s.length : Int) + idx else idx
  if 0 ≤ n then s[n.toNat]? else none

def Engine.stackAt (e : Engine) (idx : Int) : Option DukVal :=
  idxVal e.stack idx

/-- Push a value on the evaluation stack (`duk_push_*`). -/
def dukPushVal (e : Engine) (v : DukVal) : Engine :=
  { e with stack := e.stack ++ [v] }

/-- `duk_pop`. -/
def duk_pop (e : Engine) : Engine :=
  { e with stack := e.stack.dropLast }

/-- `duk_pop_2`. -/
def duk_pop_2 (e : Engine) : Engine :=
  duk_pop (duk_pop e)

/-- `duk_remove(ctx, idx)`: remove the value at the (normalized) index. -/
def duk_remove (e : Engine) (idx : Int) : Engine :=
  let n : Int := if idx < 0 then (e.stack.length : Int) + idx else idx
  if 0 ≤ n then { e with stack := e.stack.eraseIdx n.toNat } else e

/-- `duk_dup(ctx, idx)`: push a copy of the value at the index. -/
def duk_dup (e : Engine) (idx : Int) : Engine :=
  dukPushVal e ((e.stackAt idx).getD .undefined)

/-- Write an array property: within the array length this is an update, at or
beyond the length the array auto-extends (duktape array semantics; the source
only ever writes at most one past the end). -/
def listPutIdx (l : List DukVal) (i : Nat) (v : DukVal) : List DukVal :=
  if i < l.length then l.set i v
  else l ++ List.replicate (i - l.length) .undefined ++ [v]

/-- `duk_get_prop_index(ctx, idx, i)`: push property `i` of the object at
`idx`.  The only object this code indexes is the ref array; reading a missing
property pushes undefined. -/
def duk_get_prop_index (e : Engine) (idx : Int) (i : Nat) : Engine :=
  match e.stackAt idx with
  | some .refArrayRef => dukPushVal e (((e.refs.getD [])[i]?).getD .undefined)
  | _ => dukPushVal e .undefined

/-- `duk_put_prop_index(ctx, idx, i)`: pop the stack top and store it as
property `i` of the object at `idx` (always consumes the value). -/
def duk_put_prop_index (e : Engine) (idx : Int) (i : Nat) : Engine :=
  match e.stackAt idx with
  | some .refArrayRef =>
      let v := (idxVal e.stack (-1)).getD .undefined
      { duk_pop e with refs := some (listPutIdx (e.refs.getD []) i v) }
  | _ => duk_pop e

/-- `duk_get_length(ctx, idx)` for the ref array. -/
def duk_get_length (e : Engine) (idx : Int) : Nat :=
  match e.stackAt idx with
  | some .refArrayRef => (e.refs.getD []).length
  | _ => 0

/-- `duk_equals(ctx, i, j)`: duktape loose equality of the two stack values.
Only the same-kind comparisons and the null/undefined pairing are modelled
(the coercing cross-kind cases of JS `==` are never exercised here; NaN is
outside the rational number model). -/
def dukEquals (a b : DukVal) : Bool :=
  match a, b with
  | .undefined, .undefined => true
  | .undefined, .null => true
  | .null, .undefined => true
  | .null, .null => true
  | .boolean x, .boolean y => x == y
  | .number x, .number y => x == y
  | .string x, .string y => x == y
  | .object x, .object y => x == y
  | .pointer x, .pointer y => x == y
  | .refArrayRef, .refArrayRef => true
  | _, _ => false

def duk_equals (e : Engine) (i j : Int) : Bool :=
  dukEquals ((e.stackAt i).getD .undefined) ((e.stackAt j).getD .undefined)

/-- `DukValue::push_ref_array`: push the heap stash, create the ref array
under the well-known key if absent (a fresh array with `arr[0] = 0`, the
empty free list), push the array and pop the stash.  Net effect: the ref
array is ensured and its reference is pushed. -/
def push_ref_array (e : Engine) : Engine :=
  match e.refs with
  | some _ => { e with stack := e.stack ++ [.refArrayRef] }
  | none => { e with refs := some [.number 0], stack := e.stack ++ [.refArrayRef] }

/-- `DukValue::stash_ref(ctx, idx)`: allocate a slot in the ref array for the
value at stack index `idx` and return the slot index (line-by-line from the
source: read the free-list head at `refs[0]`; 0 means append at the current
length, otherwise reuse that slot and unlink it; then `duk_dup` the value and
store it at the chosen slot). -/
def stash_ref (e : Engine) (idx : Int) : Nat × Engine :=
  let e1 := push_ref_array e
  -- if idx is relative, adjust it for the array just pushed
  let idx := if idx < 0 then idx - 1 else idx
  let e2 := duk_get_prop_index e1 (-1) 0
  let next_free_idx := dukGetUInt ((e2.stackAt (-1)).getD .undefined)
  let e3 := duk_pop e2
  let step : Nat × Engine :=
    if next_free_idx == 0 then
      -- no free spots in the array, make a new one at arr.length
      (duk_get_length e3 (-1), e3)
    else
      -- free spot found: ref_array[0] = ref_array[next_free_idx]
      (next_free_idx, duk_put_prop_index (duk_get_prop_index e3 (-1) next_free_idx) (-2) 0)
  let e4 := duk_dup step.2 idx
  let e5 := duk_put_prop_index e4 (-2) step.1
  (step.1, duk_pop e5)

/-- `DukValue::free_ref(ctx, ref_array_idx)`: chain the freed slot into the
free list (`refs[idx] = refs[0]; refs[0] = idx`). -/
def free_ref (e : Engine) (ref_array_idx : Nat) : Engine :=
  let e1 := push_ref_array e
  let e2 := duk_get_prop_index e1 (-1) 0
  let e3 := duk_put_prop_index e2 (-2) ref_array_idx
  let e4 := dukPushVal e3 (.number ref_array_idx)
  let e5 := duk_put_prop_index e4 (-2) 0
  duk_pop e5

/-- The `union ValueTypes mPOD` of the source.  The source only ever reads
the member it last wrote for the active type, so the union is modelled as a
record of all members; copying the record is copying the union bytes. -/
structure POD : Type where
  boolean : Bool := false
  number : ℚ := 0
  pointer : Nat := 0
  ref_array_idx : Nat := 0
deriving DecidableEq

/-- The `DukValue` class.  `mContext` holds the engine id (a `duk_context*`
compared by identity, `0` = `NULL`); `mRefCount` holds the address of the
shared counter (`int*`), or `none` for `NULL`. -/
structure DukValue : Type where
  mContext : Nat
  mType : DukType
  mPOD : POD
  mString : List UInt8
  mRefCount : Option Nat
deriving DecidableEq

/-- The default constructor: `DukValue() : mContext(NULL), mType(UNDEFINED),
mRefCount(NULL)` (the POD union and the string are default-constructed). -/
def DukValue.initial : DukValue :=
  { mContext := 0, mType := .UNDEFINED, mPOD := {}, mString := [], mRefCount := none }

instance : Inhabited DukValue := ⟨DukValue.initial⟩

/-- The heap of shared reference counters (`new int(n)` / `delete`): an
association list from addresses to counter values, plus the next fresh
address. -/
structure RCHeap : Type where
  mem : List (Nat × Int)
  next : Nat
deriving DecidableEq

/-- Read a counter (`*mRefCount`); `none` if the address is not allocated. -/
def rcGet : List (Nat × Int) → Nat → Option Int
  | [], _ => none
  | (b, c) :: t, a => if a = b then some c else rcGet t a

/-- Overwrite an allocated counter (`*mRefCount = n`). -/
def rcSet : List (Nat × Int) → Nat → Int → List (Nat × Int)
  | [], _, _ => []
  | (b, c) :: t, a, n => if a = b then (b, n) :: t else (b, c) :: rcSet t a n

/-- Deallocate a counter (`delete mRefCount`). -/
def rcRemove : List (Nat × Int) → Nat → List (Nat × Int)
  | [], _ => []
  | (b, c) :: t, a => if a = b then t else (b, c) :: rcRemove t a

/-- `new int(n)`: allocate a fresh counter, returning its address. -/
def RCHeap.alloc (h : RCHeap) (n : Int) : RCHeap × Nat :=
  ({ mem := h.mem ++ [(h.next, n)], next := h.next + 1 }, h.next)

/-- The full mutable state an operation can touch: the engine plus the
counter heap. -/
structure World : Type where
  eng : Engine
  rc : RCHeap
deriving DecidableEq

/-- `DukValue::release_ref_count`, line by line: only acts when
`mType == OBJECT`.  With a shared counter above 1 it decrements; with a
counter at 1 it frees the ref-array slot and deletes the counter; with no
counter it frees the slot directly.  Afterwards `mRefCount = NULL` and
`mType = UNDEFINED`.  (Dereferencing the counter presumes it is allocated;
this holds in every reachable state, see the invariant below.) -/
def release_ref_count (v : DukValue) (w : World) : DukValue × World :=
  if v.mType = .OBJECT then
    match v.mRefCount with
    | some a =>
        let c := (rcGet w.rc.mem a).getD 0
        if c > 1 then
          ({ v with mRefCount := none, mType := .UNDEFINED },
           { w with rc := { w.rc with mem := rcSet w.rc.mem a (c - 1) } })
        else
          ({ v with mRefCount := none, mType := .UNDEFINED },
           { w with eng := free_ref w.eng v.mPOD.ref_array_idx,
                    rc := { w.rc with mem := rcRemove w.rc.mem a } })
    | none =>
        ({ v with mType := .UNDEFINED },
         { w with eng := free_ref w.eng v.mPOD.ref_array_idx })
  else (v, w)

/-- The destructor `~DukValue`: release any references we have. -/
def DukValue.destroy (v : DukValue) (w : World) : World :=
  (release_ref_count v w).2

/-- `operator=(const DukValue& rhs)` for two distinct objects: release the
old content, copy the fields, and for an object payload attach or bump the
shared counter (lazily allocating it at 2 and attaching it to the source as
well — the `const_cast` in the source).  Returns (this, rhs, world) after
the call. -/
def dukAssign (v rhs : DukValue) (w : World) : DukValue × DukValue × World :=
  let vw1 := release_ref_count v w
  let v1 := vw1.1
  let w1 := vw1.2
  let v2 := { v1 with mContext := rhs.mContext, mType := rhs.mType, mPOD := rhs.mPOD }
  let v3 := if rhs.mType = .STRING then { v2 with mString := rhs.mString } else v2
  if rhs.mType = .OBJECT then
    match rhs.mRefCount with
    | none =>
        -- not ref counted before, need to allocate memory: new int(2)
        let ha := w1.rc.alloc 2
        ({ v3 with mRefCount := some ha.2 },
         { rhs with mRefCount := some ha.2 },
         { w1 with rc := ha.1 })
    | some a =>
        -- already refcounting, just increment
        let c := (rcGet w1.rc.mem a).getD 0
        ({ v3 with mRefCount := some a }, rhs,
         { w1 with rc := { w1.rc with mem := rcSet w1.rc.mem a (c + 1) } })
  else (v3, rhs, w1)

/-- `operator=` when the right-hand side aliases `*this` (self-assignment):
the same statements, but every read of `rhs` sees the state this very object
has after the release step, and every field copy is a self-copy. -/
def dukAssignSelf (v : DukValue) (w : World) : DukValue × World :=
  let vw1 := release_ref_count v w
  let v1 := vw1.1
  let w1 := vw1.2
  let v2 := { v1 with mContext := v1.mContext, mType := v1.mType, mPOD := v1.mPOD }
  let v3 := if v2.mType = .STRING then { v2 with mString := v2.mString } else v2
  if v3.mType = .OBJECT then
    match v3.mRefCount with
    | none =>
        let ha := w1.rc.alloc 2
        ({ v3 with mRefCount := some ha.2 }, { w1 with rc := ha.1 })
    | some a =>
        let c := (rcGet w1.rc.mem a).getD 0
        ({ v3 with mRefCount := some a },
         { w1 with rc := { w1.rc with mem := rcSet w1.rc.mem a (c + 1) } })
  else (v3, w1)

/-- The copy constructor: `DukValue(const DukValue& copy) : DukValue() {
*this = copy; }`.  Returns (the new value, the possibly updated source, the
world). -/
def dukCopyCtor (rhs : DukValue) (w : World) : DukValue × DukValue × World :=
  dukAssign DukValue.initial rhs w

/-- The move constructor: field-by-field transfer (`mString` only moved for
strings — otherwise the destination string stays default-constructed and the
source keeps its bytes), then the source is reset to `UNDEFINED` with a null
counter pointer.  No counter is touched (the function does not even take the
world).  A moved-from `std::string` is modelled as empty. -/
def dukMoveCtor (src : DukValue) : DukValue × DukValue :=
  ({ mContext := src.mContext, mType := src.mType, mPOD := src.mPOD,
     mString := if src.mType = .STRING then src.mString else [],
     mRefCount := src.mRefCount },
   { src with mType := .UNDEFINED, mRefCount := none,
              mString := if src.mType = .STRING then [] else src.mString })

/-- `copy_from_stack(ctx, idx, accept_mask)`: fail (assert) if the reported
type at `idx` is excluded by the mask, otherwise build a fresh value reading
the payload per type; an object payload allocates a ref-array slot via
`stash_ref`.  An out-of-range index has type `DUK_TYPE_NONE`, which the
variant cannot hold; it is modelled as capture failure. -/
def copy_from_stack (e : Engine) (idx : Int) (accept_mask : Nat) :
    Option (DukValue × Engine) :=
  match e.stackAt idx with
  | none => none
  | some sv =>
    if accept_mask &&& typeMask sv == 0 then none  -- assert(false)
    else
      let v0 : DukValue := { DukValue.initial with mContext := e.id, mType := dukTypeOf sv }
      match sv with
      | .undefined => some (v0, e)
      | .null => some ({ v0 with mPOD := { v0.mPOD with pointer := 0 } }, e)
      | .boolean b => some ({ v0 with mPOD := { v0.mPOD with boolean := b } }, e)
      | .number q => some ({ v0 with mPOD := { v0.mPOD with number := q } }, e)
      | .string s => some ({ v0 with mString := s }, e)
      | .object _ =>
          let ie := stash_ref e idx
          some ({ v0 with mPOD := { v0.mPOD with ref_array_idx := ie.1 } }, ie.2)
      | .refArrayRef =>
          let ie := stash_ref e idx
          some ({ v0 with mPOD := { v0.mPOD with ref_array_idx := ie.1 } }, ie.2)
      | .pointer p => some ({ v0 with mPOD := { v0.mPOD with pointer := p } }, e)

/-- `take_from_stack`: same as `copy_from_stack`, then remove the source
value from the stack. -/
def take_from_stack (e : Engine) (idx : Int) (accept_mask : Nat) :
    Option (DukValue × Engine) :=
  match copy_from_stack e idx accept_mask with
  | none => none
  | some ve => some (ve.1, duk_remove ve.2 idx)

/-- `DukValue::push`: re-materialize the held value on the stack.  For an
object: push the ref array, read the stored slot, remove the array. -/
def DukValue.push (v : DukValue) (e : Engine) : Engine :=
  match v.mType with
  | .UNDEFINED => dukPushVal e .undefined
  | .NULLREF => dukPushVal e .null
  | .BOOLEAN => dukPushVal e (.boolean v.mPOD.boolean)
  | .NUMBER => dukPushVal e (.number v.mPOD.number)
  | .STRING => dukPushVal e (.string v.mString)
  | .OBJECT =>
      let e1 := push_ref_array e
      let e2 := duk_get_prop_index e1 (-1) v.mPOD.ref_array_idx
      duk_remove e2 (-2)
  | .POINTER => dukPushVal e (.pointer v.mPOD.pointer)

/-- `operator==`: kind and context must match; then per-kind payload
comparison, except objects, which are pushed and compared by the engine and
popped again.  Returns the result and the engine after the call. -/
def dukValueEq (v rhs : DukValue) (e : Engine) : Bool × Engine :=
  if v.mType ≠ rhs.mType ∨ v.mContext ≠ rhs.mContext then (false, e)
  else
    match v.mType with
    | .UNDEFINED => (true, e)
    | .NULLREF => (true, e)
    | .BOOLEAN => (v.mPOD.boolean == rhs.mPOD.boolean, e)
    | .NUMBER => (v.mPOD.number == rhs.mPOD.number, e)
    | .STRING => (v.mString == rhs.mString, e)
    | .OBJECT =>
        let e1 := v.push e
        let e2 := rhs.push e1
        let r := duk_equals e2 (-1) (-2)
        (r, duk_pop_2 e2)
    | .POINTER => (v.mPOD.pointer == rhs.mPOD.pointer, e)

/-- Truncation toward zero, the C++ floating-to-integral conversion rule. -/
def ratTruncTowardZero (q : ℚ) : ℤ :=
  if 0 ≤ q then ⌊q⌋ else ⌈q⌉

/-- `static_cast<uint32_t>(double)`: truncate toward zero, wrapped mod 2^32
(the behaviour of the targeted two's-complement platforms). -/
def uint32OfRat (q : ℚ) : Nat :=
  ((ratTruncTowardZero q) % (2 ^ 32 : ℤ)).toNat

/-- Conversion of a `uint32_t` value to the signed `duk_int_t` (int32)
return type, two's complement. -/
def int32OfUInt32 (n : Nat) : ℤ :=
  if n < 2 ^ 31 then (n : ℤ) else (n : ℤ) - 2 ^ 32

/-- `as_double`: asserts `mType == NUMBER`. -/
def DukValue.as_double (v : DukValue) : Option ℚ :=
  if v.mType ≠ .NUMBER then none else some v.mPOD.number

/-- `as_int`: asserts `mType == NUMBER`; returns
`static_cast<uint32_t>(mPOD.number)` converted to the signed return type. -/
def DukValue.as_int (v : DukValue) : Option ℤ :=
  if v.mType ≠ .NUMBER then none else some (int32OfUInt32 (uint32OfRat v.mPOD.number))

/-- `as_uint`: asserts `mType == NUMBER`; returns
`static_cast<uint32_t>(mPOD.number)`. -/
def DukValue.as_uint (v : DukValue) : Option Nat :=
  if v.mType ≠ .NUMBER then none else some (uint32OfRat v.mPOD.number)

/-- `as_pointer`: asserts `mType == POINTER || mType == NULLREF`. -/
def DukValue.as_pointer (v : DukValue) : Option Nat :=
  if v.mType ≠ .POINTER ∧ v.mType ≠ .NULLREF then none else some v.mPOD.pointer

/-- `as_string`: asserts `mType == STRING`. -/
def DukValue.as_string (v : DukValue) : Option (List UInt8) :=
  if v.mType ≠ .STRING then none else some v.mString

/-- `as_c_string` (`mString.data()`): asserts `mType == STRING`. -/
def DukValue.as_c_string (v : DukValue) : Option (List UInt8) :=
  if v.mType ≠ .STRING then none else some v.mString

/-! ### Helper lemmas about `release_ref_count` -/

theorem release_ref_count_not_object (v : DukValue) (w : World) (h : v.mType ≠ .OBJECT) :
    release_ref_count v w = (v, w) := by
  unfold release_ref_count
  rw [if_neg h]

theorem release_ref_count_fst_type (v : DukValue) (w : World) (h : v.mType = .OBJECT) :
    (release_ref_count v w).1.mType = .UNDEFINED := by
  unfold release_ref_count
  rw [if_pos h]
  cases hrc : v.mRefCount <;> simp <;> split <;> rfl

theorem release_ref_count_fst_rc (v : DukValue) (w : World) (h : v.mType = .OBJECT) :
    (release_ref_count v w).1.mRefCount = none := by
  unfold release_ref_count
  rw [if_pos h]
  cases hrc : v.mRefCount <;> simp [hrc] <;> split <;> rfl

/-! ### C5: move semantics -/

/-- C5: moving a variant transfers `engine_handle`, `kind`, the scalar
payload, the text (for strings) and `ref_count` to the destination without
touching any counter (the move constructor does not act on the world at
all); afterwards the source reports kind Undefined, holds no counter
pointer, and destroying it performs no release action — the world, its
counters and the ref array included, is completely unchanged. -/
theorem C5_move_semantics (src : DukValue) (w : World) :
    (dukMoveCtor src).1.mContext = src.mContext
    ∧ (dukMoveCtor src).1.mType = src.mType
    ∧ (dukMoveCtor src).1.mPOD = src.mPOD
    ∧ (src.mType = .STRING → (dukMoveCtor src).1.mString = src.mString)
    ∧ (dukMoveCtor src).1.mRefCount = src.mRefCount
    ∧ (dukMoveCtor src).2.mType = .UNDEFINED
    ∧ (dukMoveCtor src).2.mRefCount = none
    ∧ (dukMoveCtor src).2.destroy w = w := by
  refine ⟨rfl, rfl, rfl, ?_, rfl, rfl, rfl, ?_⟩
  · intro h
    simp [dukMoveCtor, h]
  · unfold DukValue.destroy
    rw [release_ref_count_not_object]
    simp [dukMoveCtor]

theorem C5_move_semantics_witness :
    ((dukMoveCtor ⟨3, .STRING, {}, [65, 0, 255], none⟩).1.mContext = 3
      ∧ (dukMoveCtor ⟨3, .STRING, {}, [65, 0, 255], none⟩).1.mType = .STRING
      ∧ (dukMoveCtor ⟨3, .STRING, {}, [65, 0, 255], none⟩).1.mPOD = {}
      ∧ ((⟨3, .STRING, {}, [65, 0, 255], none⟩ : DukValue).mType = .STRING →
          (dukMoveCtor ⟨3, .STRING, {}, [65, 0, 255], none⟩).1.mString = [65, 0, 255])
      ∧ (dukMoveCtor ⟨3, .STRING, {}, [65, 0, 255], none⟩).1.mRefCount = none
      ∧ (dukMoveCtor ⟨3, .STRING, {}, [65, 0, 255], none⟩).2.mType = .UNDEFINED
      ∧ (dukMoveCtor ⟨3, .STRING, {}, [65, 0, 255], none⟩).2.mRefCount = none
      ∧ (dukMoveCtor ⟨3, .STRING, {}, [65, 0, 255], none⟩).2.destroy ⟨⟨3, [], none⟩, ⟨[], 0⟩⟩
          = ⟨⟨3, [], none⟩, ⟨[], 0⟩⟩) :=
  C5_move_semantics ⟨3, .STRING, {}, [65, 0, 255], none⟩ ⟨⟨3, [], none⟩, ⟨[], 0⟩⟩

/-! ### C10: self-assignment -/

theorem DukValue.eta (u : DukValue) :
    DukValue.mk u.mContext u.mType u.mPOD u.mString u.mRefCount = u := rfl

theorem dukAssignSelf_eq_release (v : DukValue) (w : World) :
    dukAssignSelf v w = release_ref_count v w := by
  by_cases hT : v.mType = .OBJECT
  · have h1 := release_ref_count_fst_type v w hT
    unfold dukAssignSelf
    simp only [DukValue.eta, ite_self, h1]
    simp
    rw [← h1]
  · rw [release_ref_count_not_object v w hT]
    unfold dukAssignSelf
    rw [release_ref_count_not_object v w hT]
    simp only [DukValue.eta, ite_self]
    simp [hT]

/-- C10: self-assignment of an Object-kind variant first runs the release
protocol (freeing the ref-array slot when the variant is sole owner, or
decrementing the shared counter otherwise) and then copies the
already-released state: the result has kind Undefined, not the original
content. Self-assignment of any non-Object kind leaves value and world
unchanged. -/
theorem C10_self_assignment (v : DukValue) (w : World) :
    dukAssignSelf v w = release_ref_count v w
    ∧ (v.mType = .OBJECT →
        (dukAssignSelf v w).1.mType = .UNDEFINED
        ∧ (dukAssignSelf v w).1.mRefCount = none
        ∧ (v.mRefCount = none →
            (dukAssignSelf v w).2.eng = free_ref w.eng v.mPOD.ref_array_idx)
        ∧ (∀ a c, v.mRefCount = some a → rcGet w.rc.mem a = some c → 1 < c →
            (dukAssignSelf v w).2.rc.mem = rcSet w.rc.mem a (c - 1)))
    ∧ (v.mType ≠ .OBJECT → dukAssignSelf v w = (v, w)) := by
  refine ⟨dukAssignSelf_eq_release v w, ?_, ?_⟩
  · intro hT
    rw [dukAssignSelf_eq_release v w]
    refine ⟨release_ref_count_fst_type v w hT, release_ref_count_fst_rc v w hT, ?_, ?_⟩
    · intro hrc
      unfold release_ref_count
      rw [if_pos hT]
      simp [hrc]
    · intro a c ha hc hgt
      unfold release_ref_count
      rw [if_pos hT]
      simp [ha, hc, hgt]
  · intro hT
    rw [dukAssignSelf_eq_release v w, release_ref_count_not_object v w hT]

theorem C10_self_assignment_witness :
    (dukAssignSelf ⟨3, .OBJECT, { ref_array_idx := 1 }, [], none⟩ ⟨⟨3, [], some [.number 0, .object 7]⟩, ⟨[], 0⟩⟩
        = release_ref_count ⟨3, .OBJECT, { ref_array_idx := 1 }, [], none⟩ ⟨⟨3, [], some [.number 0, .object 7]⟩, ⟨[], 0⟩⟩)
    ∧ ((⟨3, .OBJECT, { ref_array_idx := 1 }, [], none⟩ : DukValue).mType = .OBJECT →
        (dukAssignSelf ⟨3, .OBJECT, { ref_array_idx := 1 }, [], none⟩ ⟨⟨3, [], some [.number 0, .object 7]⟩, ⟨[], 0⟩⟩).1.mType = .UNDEFINED
        ∧ (dukAssignSelf ⟨3, .OBJECT, { ref_array_idx := 1 }, [], none⟩ ⟨⟨3, [], some [.number 0, .object 7]⟩, ⟨[], 0⟩⟩).1.mRefCount = none
        ∧ ((⟨3, .OBJECT, { ref_array_idx := 1 }, [], none⟩ : DukValue).mRefCount = none →
            (dukAssignSelf ⟨3, .OBJECT, { ref_array_idx := 1 }, [], none⟩ ⟨⟨3, [], some [.number 0, .object 7]⟩, ⟨[], 0⟩⟩).2.eng
              = free_ref ⟨3, [], some [.number 0, .object 7]⟩ 1)
        ∧ (∀ a c, (⟨3, .OBJECT, { ref_array_idx := 1 }, [], none⟩ : DukValue).mRefCount = some a →
            rcGet ([] : List (Nat × Int)) a = some c → 1 < c →
            (dukAssignSelf ⟨3, .OBJECT, { ref_array_idx := 1 }, [], none⟩ ⟨⟨3, [], some [.number 0, .object 7]⟩, ⟨[], 0⟩⟩).2.rc.mem
              = rcSet [] a (c - 1)))
    ∧ ((⟨3, .OBJECT, { ref_array_idx := 1 }, [], none⟩ : DukValue).mType ≠ .OBJECT →
        dukAssignSelf ⟨3, .OBJECT, { ref_array_idx := 1 }, [], none⟩ ⟨⟨3, [], some [.number 0, .object 7]⟩, ⟨[], 0⟩⟩
          = (⟨3, .OBJECT, { ref_array_idx := 1 }, [], none⟩, ⟨⟨3, [], some [.number 0, .object 7]⟩, ⟨[], 0⟩⟩)) :=
  C10_self_assignment ⟨3, .OBJECT, { ref_array_idx := 1 }, [], none⟩ ⟨⟨3, [], some [.number 0, .object 7]⟩, ⟨[], 0⟩⟩

/-! ### C7: numeric accessor narrowing -/

/-- Narrowing to the signed 32-bit representation exactly as the spec words
it: standard truncation toward zero, two's-complement representation. -/
def specNarrowInt32 (q : ℚ) : ℤ :=
  (ratTruncTowardZero q + 2 ^ 31) % 2 ^ 32 - 2 ^ 31

/-- Narrowing to the unsigned 32-bit representation as the spec words it. -/
def specNarrowUInt32 (q : ℚ) : ℕ :=
  ((ratTruncTowardZero q) % (2 ^ 32 : ℤ)).toNat

theorem as_int_narrow (q : ℚ) :
    int32OfUInt32 (uint32OfRat q) = specNarrowInt32 q := by
  unfold uint32OfRat specNarrowInt32 int32OfUInt32
  split <;> omega

/-- C7: on a Number-kind variant, `as_int` returns the held double narrowed
to the signed 32-bit integer representation with standard truncation
semantics, and `as_uint` returns it narrowed to the unsigned 32-bit
representation with standard truncation semantics (the source computes
`as_int` by way of a `uint32_t` cast; the result coincides with the direct
signed narrowing). -/
theorem C7_numeric_narrowing (v : DukValue) (h : v.mType = .NUMBER) :
    v.as_int = some (specNarrowInt32 v.mPOD.number)
    ∧ v.as_uint = some (specNarrowUInt32 v.mPOD.number) := by
  constructor
  · simp [DukValue.as_int, h, as_int_narrow]
  · simp [DukValue.as_uint, h, uint32OfRat, specNarrowUInt32]

theorem C7_numeric_narrowing_witness :
    (⟨0, .NUMBER, { number := -(5/2 : ℚ) }, [], none⟩ : DukValue).as_int
        = some (specNarrowInt32 (-(5/2 : ℚ)))
    ∧ (⟨0, .NUMBER, { number := -(5/2 : ℚ) }, [], none⟩ : DukValue).as_uint
        = some (specNarrowUInt32 (-(5/2 : ℚ))) :=
  C7_numeric_narrowing ⟨0, .NUMBER, { number := -(5/2 : ℚ) }, [], none⟩ rfl

/-! ### C9: string round-trip fidelity -/

/-- C9: a string on the engine stack — embedded zero bytes and non-ASCII
bytes included — captured into a variant and pushed back yields exactly the
original byte sequence, length included (capture and push are
length-prefixed, nothing depends on zero termination). -/
theorem C9_string_round_trip (e : Engine) (idx : Int) (s : List UInt8) (mask : Nat)
    (hs : e.stackAt idx = some (.string s)) (hm : mask &&& typeMask (.string s) ≠ 0) :
    ∃ v, copy_from_stack e idx mask = some (v, e)
      ∧ v.mType = .STRING ∧ v.mString = s
      ∧ (v.push e).stack = e.stack ++ [.string s] := by
  refine ⟨{ DukValue.initial with mContext := e.id, mType := .STRING, mString := s },
    ?_, rfl, rfl, rfl⟩
  unfold copy_from_stack
  rw [hs]
  simp [hm, dukTypeOf]

theorem C9_string_round_trip_witness :
    ∃ v, copy_from_stack ⟨2, [.string [0, 255, 65]], none⟩ (-1) 4294967295
          = some (v, ⟨2, [.string [0, 255, 65]], none⟩)
      ∧ v.mType = .STRING ∧ v.mString = [0, 255, 65]
      ∧ (v.push ⟨2, [.string [0, 255, 65]], none⟩).stack
          = [.string [0, 255, 65], .string [0, 255, 65]] :=
  C9_string_round_trip ⟨2, [.string [0, 255, 65]], none⟩ (-1) [0, 255, 65] 4294967295
    rfl (by decide)

/-! ### C1: shared-ownership lifecycle (concrete execution)

One engine (id 1) with one script object (id 7) on the evaluation stack.
Variant A is captured from the stack, B is copy-constructed from A, C from B;
then A, B, C are destroyed in that order. -/

def c1Engine : Engine := ⟨1, [DukVal.object 7], none⟩

def c1Cap : DukValue × Engine :=
  (copy_from_stack c1Engine (-1) 4294967295).getD (DukValue.initial, c1Engine)

def c1A : DukValue := c1Cap.1

def c1W0 : World := ⟨c1Cap.2, ⟨[], 0⟩⟩

/-- B = copy(A): yields (B, updated A, world). -/
def c1CopyB : DukValue × DukValue × World := dukCopyCtor c1A c1W0

/-- C = copy(B): yields (C, updated B, world). -/
def c1CopyC : DukValue × DukValue × World := dukCopyCtor c1CopyB.1 c1CopyB.2.2

def c1AfterA : World := c1CopyB.2.1.destroy c1CopyC.2.2

def c1AfterB : World := c1CopyC.2.1.destroy c1AfterA

def c1AfterC : World := c1CopyC.1.destroy c1AfterB

/-- C1: capturing the object allocates ref-array slot 1 for A; after
destroying (releasing) A and then B, the slot is still allocated and still
pins the object (the counter survives at 1 and C still pushes the object
onto the stack); destroying C afterwards frees the slot — the object is
dropped from the ref array and slot 1 is chained into the free list — so
that the very next allocation returns exactly the freed index 1. -/
theorem C1_shared_ownership_lifecycle :
    copy_from_stack c1Engine (-1) 4294967295 = some (c1A, c1Cap.2)
    ∧ c1A.mType = .OBJECT
    ∧ c1A.mPOD.ref_array_idx = 1
    ∧ c1Cap.2.refs = some [.number 0, .object 7]
    ∧ c1AfterB.eng.refs = some [.number 0, .object 7]
    ∧ c1AfterB.rc.mem = [(0, 1)]
    ∧ (c1CopyC.1.push c1AfterB.eng).stack = c1AfterB.eng.stack ++ [.object 7]
    ∧ c1AfterC.eng.refs = some [.number 1, .number 0]
    ∧ c1AfterC.rc.mem = []
    ∧ (stash_ref c1AfterC.eng (-1)).1 = 1 := by
  decide

/-! ### C6: equality -/

/-- C6: `operator==` returns true only when the engine handles and the kinds
match (so equal-valued numbers against different engines are never equal,
and a Boolean against a Number is never equal); with matching handle and
kind, Undefined and Null compare equal unconditionally, Boolean, Number and
Pointer compare by payload value, String by buffer content. -/
theorem C6_equality (v rhs : DukValue) (e : Engine) :
    ((dukValueEq v rhs e).1 = true → v.mContext = rhs.mContext ∧ v.mType = rhs.mType)
    ∧ (v.mContext = rhs.mContext → v.mType = rhs.mType →
        ((v.mType = .UNDEFINED ∨ v.mType = .NULLREF) → (dukValueEq v rhs e).1 = true)
        ∧ (v.mType = .BOOLEAN →
            ((dukValueEq v rhs e).1 = true ↔ v.mPOD.boolean = rhs.mPOD.boolean))
        ∧ (v.mType = .NUMBER →
            ((dukValueEq v rhs e).1 = true ↔ v.mPOD.number = rhs.mPOD.number))
        ∧ (v.mType = .POINTER →
            ((dukValueEq v rhs e).1 = true ↔ v.mPOD.pointer = rhs.mPOD.pointer))
        ∧ (v.mType = .STRING →
            ((dukValueEq v rhs e).1 = true ↔ v.mString = rhs.mString))) := by
  constructor
  · intro hres
    by_cases hg : v.mType ≠ rhs.mType ∨ v.mContext ≠ rhs.mContext
    · rw [dukValueEq, if_pos hg] at hres
      exact absurd hres (by simp)
    · push_neg at hg
      exact ⟨hg.2, hg.1⟩
  · intro hc ht
    have hg : ¬(v.mType ≠ rhs.mType ∨ v.mContext ≠ rhs.mContext) := by
      simp [hc, ht]
    refine ⟨?_, ?_, ?_, ?_, ?_⟩
    · rintro (hk | hk) <;> rw [dukValueEq, if_neg hg] <;> rw [hk]
    · intro hk
      rw [dukValueEq, if_neg hg, hk]
      simp
    · intro hk
      rw [dukValueEq, if_neg hg, hk]
      simp
    · intro hk
      rw [dukValueEq, if_neg hg, hk]
      simp
    · intro hk
      rw [dukValueEq, if_neg hg, hk]
      simp

theorem C6_equality_witness :
    (dukValueEq ⟨1, .NUMBER, { number := 42 }, [], none⟩
        ⟨1, .NUMBER, { number := 42 }, [], none⟩ ⟨1, [], none⟩).1 = true :=
  (((C6_equality ⟨1, .NUMBER, { number := 42 }, [], none⟩
      ⟨1, .NUMBER, { number := 42 }, [], none⟩ ⟨1, [], none⟩).2 rfl rfl).2.2.1 rfl).mpr rfl

/-! ### C4: type-mismatch contract -/

/-- C4: capturing a stack value whose engine-reported type is excluded by
the acceptance mask fails the fatal assertion (no variant is produced);
calling a typed accessor on a variant of the wrong kind fails the fatal
assertion and never fabricates a value; the one exception is `as_pointer`,
which also accepts a Null-kind variant and returns the null pointer for a
captured null.  The capture-failure and null-capture scenarios are
quantified over independent engine/index/mask triples so each can be
exercised. -/
theorem C4_type_mismatch (e1 : Engine) (idx1 : Int) (mask1 : Nat) (sv : DukVal)
    (v : DukValue) (e2 : Engine) (idx2 : Int) (mask2 : Nat) :
    (e1.stackAt idx1 = some sv → mask1 &&& typeMask sv = 0 →
        copy_from_stack e1 idx1 mask1 = none)
    ∧ (v.mType ≠ .NUMBER → v.as_int = none ∧ v.as_uint = none ∧ v.as_double = none)
    ∧ (v.mType ≠ .STRING → v.as_string = none ∧ v.as_c_string = none)
    ∧ (v.mType ≠ .POINTER → v.mType ≠ .NULLREF → v.as_pointer = none)
    ∧ (e2.stackAt idx2 = some .null → mask2 &&& typeMask .null ≠ 0 →
        ∃ v2, copy_from_stack e2 idx2 mask2 = some (v2, e2) ∧ v2.as_pointer = some 0) := by
  refine ⟨?_, ?_, ?_, ?_, ?_⟩
  · intro hs hm
    unfold copy_from_stack
    rw [hs]
    simp [hm]
  · intro h
    simp [DukValue.as_int, DukValue.as_uint, DukValue.as_double, h]
  · intro h
    simp [DukValue.as_string, DukValue.as_c_string, h]
  · intro h1 h2
    simp [DukValue.as_pointer, h1, h2]
  · intro hs hm
    refine ⟨{ DukValue.initial with
                mContext := e2.id, mType := .NULLREF,
                mPOD := { DukValue.initial.mPOD with pointer := 0 } }, ?_, rfl⟩
    unfold copy_from_stack
    rw [hs]
    simp [hm, dukTypeOf]

theorem C4_type_mismatch_witness :
    copy_from_stack ⟨1, [.number 5], none⟩ (-1) 12 = none
    ∧ ((⟨0, .BOOLEAN, { boolean := true }, [], none⟩ : DukValue).as_int = none
        ∧ (⟨0, .BOOLEAN, { boolean := true }, [], none⟩ : DukValue).as_uint = none
        ∧ (⟨0, .BOOLEAN, { boolean := true }, [], none⟩ : DukValue).as_double = none)
    ∧ ((⟨0, .BOOLEAN, { boolean := true }, [], none⟩ : DukValue).as_string = none
        ∧ (⟨0, .BOOLEAN, { boolean := true }, [], none⟩ : DukValue).as_c_string = none)
    ∧ (⟨0, .BOOLEAN, { boolean := true }, [], none⟩ : DukValue).as_pointer = none
    ∧ (∃ v2, copy_from_stack ⟨1, [.null], none⟩ (-1) 4294967295
          = some (v2, ⟨1, [.null], none⟩) ∧ v2.as_pointer = some 0) := by
  have h := C4_type_mismatch ⟨1, [.number 5], none⟩ (-1) 12 (.number 5)
    ⟨0, .BOOLEAN, { boolean := true }, [], none⟩ ⟨1, [.null], none⟩ (-1) 4294967295
  exact ⟨h.1 rfl (by decide), h.2.1 (by decide), h.2.2.1 (by decide),
    h.2.2.2.1 (by decide) (by decide), h.2.2.2.2 rfl (by decide)⟩

/-! ### Stack-shape lemmas for the engine operations -/

theorem idxVal_concat (s : List DukVal) (x : DukVal) :
    idxVal (s ++ [x]) (-1) = some x := by
  unfold idxVal
  have h : ((s ++ [x]).length : Int) + (-1) = (s.length : Int) := by
    simp
  simp only [if_pos (by omega : (-1 : Int) < 0), h]
  rw [if_pos (by omega : (0 : Int) ≤ (s.length : Int))]
  simp [List.getElem?_concat_length]

theorem idxVal_concat2 (s : List DukVal) (x y : DukVal) :
    idxVal (s ++ [x] ++ [y]) (-2) = some x := by
  unfold idxVal
  have hlen : ((s ++ [x] ++ [y]).length : Int) = (s.length : Int) + 2 := by
    push_cast
    simp
  have h : ((s ++ [x] ++ [y]).length : Int) + (-2) = (s.length : Int) := by omega
  simp only [if_pos (by omega : (-2 : Int) < 0), h]
  rw [if_pos (by omega : (0 : Int) ≤ (s.length : Int))]
  have hlt : ((s.length : Int)).toNat < (s ++ [x]).length := by simp
  rw [List.getElem?_append, if_pos hlt]
  simp [List.getElem?_concat_length]

theorem eraseIdx_concat2 (s : List DukVal) (x y : DukVal) :
    (s ++ [x, y]).eraseIdx s.length = s ++ [y] := by
  induction s with
  | nil => rfl
  | cons a t ih =>
      simp only [List.cons_append, List.length_cons, List.eraseIdx_cons_succ, ih]

theorem idxVal_adjust (s : List DukVal) (x sv : DukVal) (idx : Int)
    (h : idxVal s idx = some sv) :
    idxVal (s ++ [x]) (if idx < 0 then idx - 1 else idx) = some sv := by
  unfold idxVal at h ⊢
  by_cases hneg : idx < 0
  · simp only [if_pos hneg] at h ⊢
    by_cases hn : (0 : Int) ≤ (s.length : Int) + idx
    · rw [if_pos hn] at h
      have hlt : ((s.length : Int) + idx).toNat < s.length :=
        (List.getElem?_eq_some.mp h).1
      have hneg2 : idx - 1 < 0 := by omega
      rw [if_pos hneg2]
      have hlen : ((s ++ [x]).length : Int) = (s.length : Int) + 1 := by simp
      have harr : ((s ++ [x]).length : Int) + (idx - 1) = (s.length : Int) + idx := by
        omega
      rw [harr, if_pos hn, List.getElem?_append, if_pos hlt]
      exact h
    · rw [if_neg hn] at h
      exact absurd h (by simp)
  · simp only [if_neg hneg] at h ⊢
    by_cases hn : (0 : Int) ≤ idx
    · rw [if_pos hn] at h ⊢
      have hlt : idx.toNat < s.length := (List.getElem?_eq_some.mp h).1
      rw [List.getElem?_append, if_pos hlt]
      exact h
    · rw [if_neg hn] at h
      exact absurd h (by simp)

theorem push_ref_array_some (e : Engine) (arr : List DukVal) (he : e.refs = some arr) :
    push_ref_array e = { e with stack := e.stack ++ [.refArrayRef] } := by
  unfold push_ref_array
  rw [he]

theorem push_ref_array_none (e : Engine) (he : e.refs = none) :
    push_ref_array e =
      { e with refs := some [.number 0], stack := e.stack ++ [.refArrayRef] } := by
  unfold push_ref_array
  rw [he]

theorem duk_get_prop_index_on_ref (e : Engine) (s arr : List DukVal) (i : Nat)
    (hs : e.stack = s ++ [.refArrayRef]) (he : e.refs = some arr) :
    duk_get_prop_index e (-1) i =
      { e with stack := e.stack ++ [(arr[i]?).getD .undefined] } := by
  unfold duk_get_prop_index Engine.stackAt
  rw [hs, idxVal_concat, he]
  simp [dukPushVal, hs, he]

theorem duk_put_prop_index_on_ref (e : Engine) (s arr : List DukVal) (i : Nat) (top : DukVal)
    (hs : e.stack = s ++ [.refArrayRef] ++ [top]) (he : e.refs = some arr) :
    duk_put_prop_index e (-2) i =
      { e with stack := s ++ [.refArrayRef], refs := some (listPutIdx arr i top) } := by
  unfold duk_put_prop_index Engine.stackAt
  rw [hs, idxVal_concat2, idxVal_concat (s ++ [DukVal.refArrayRef]) top, he]
  simp [duk_pop, List.dropLast_concat, hs, he]

theorem duk_dup_eq (e : Engine) (idx : Int) (sv : DukVal) (h : idxVal e.stack idx = some sv) :
    duk_dup e idx = { e with stack := e.stack ++ [sv] } := by
  unfold duk_dup Engine.stackAt dukPushVal
  rw [h]
  simp

theorem duk_remove_neg2 (e : Engine) (s : List DukVal) (x y : DukVal)
    (hs : e.stack = s ++ [x] ++ [y]) :
    duk_remove e (-2) = { e with stack := s ++ [y] } := by
  unfold duk_remove
  rw [hs]
  have hlen : ((s ++ [x] ++ [y]).length : Int) = (s.length : Int) + 2 := by
    push_cast
    simp
  have h : ((s ++ [x] ++ [y]).length : Int) + (-2) = (s.length : Int) := by omega
  simp only [if_pos (by omega : (-2 : Int) < 0), h]
  rw [if_pos (by omega : (0 : Int) ≤ (s.length : Int))]
  simp [eraseIdx_concat2]

/-- Characterization of `stash_ref` on an engine whose ref array exists:
the allocation branch is decided by the free-list head at slot 0, the
evaluation stack is restored exactly, and the ref array is updated per the
protocol. -/
theorem stash_ref_eq (e : Engine) (arr : List DukVal) (idx : Int) (sv : DukVal)
    (he : e.refs = some arr) (hv : idxVal e.stack idx = some sv) :
    stash_ref e idx =
      (if dukGetUInt ((arr[0]?).getD .undefined) = 0 then
        (arr.length, { e with refs := some (listPutIdx arr arr.length sv) })
       else
        (dukGetUInt ((arr[0]?).getD .undefined),
         { e with refs := some (listPutIdx
             (listPutIdx arr 0 ((arr[dukGetUInt ((arr[0]?).getD .undefined)]?).getD .undefined))
             (dukGetUInt ((arr[0]?).getD .undefined)) sv) })) := by
  unfold stash_ref
  rw [push_ref_array_some e arr he]
  dsimp only
  rw [he]
  rw [duk_get_prop_index_on_ref _ e.stack arr 0 rfl rfl]
  dsimp only
  rw [show Engine.stackAt
        { id := e.id, stack := e.stack ++ [DukVal.refArrayRef] ++ [(arr[0]?).getD .undefined],
          refs := some arr } (-1)
      = some ((arr[0]?).getD .undefined) from idxVal_concat _ _]
  dsimp only [Option.getD_some]
  rw [show duk_pop
        { id := e.id, stack := e.stack ++ [DukVal.refArrayRef] ++ [(arr[0]?).getD .undefined],
          refs := some arr }
      = { id := e.id, stack := e.stack ++ [DukVal.refArrayRef], refs := some arr } by
    simp [duk_pop]]
  split
  case isTrue h0b =>
    have h0 : dukGetUInt ((arr[0]?).getD .undefined) = 0 := by simpa using h0b
    rw [if_pos h0]
    dsimp only
    rw [show duk_get_length
          { id := e.id, stack := e.stack ++ [DukVal.refArrayRef], refs := some arr } (-1)
        = arr.length by
      unfold duk_get_length Engine.stackAt
      rw [idxVal_concat]
      simp]
    rw [duk_dup_eq _ _ sv (idxVal_adjust e.stack .refArrayRef sv idx hv)]
    dsimp only
    rw [duk_put_prop_index_on_ref _ e.stack arr arr.length sv rfl rfl]
    simp [duk_pop]
  case isFalse h0b =>
    have h0 : dukGetUInt ((arr[0]?).getD .undefined) ≠ 0 := by simpa using h0b
    rw [if_neg h0]
    dsimp only
    rw [duk_get_prop_index_on_ref _ e.stack arr _ rfl rfl]
    dsimp only
    rw [duk_put_prop_index_on_ref _ e.stack arr 0 _ rfl rfl]
    rw [duk_dup_eq _ _ sv (idxVal_adjust e.stack .refArrayRef sv idx hv)]
    dsimp only
    rw [duk_put_prop_index_on_ref _ e.stack
        (listPutIdx arr 0 ((arr[dukGetUInt ((arr[0]?).getD .undefined)]?).getD .undefined))
        _ sv rfl rfl]
    simp [duk_pop]

/-- Characterization of `free_ref` on an engine whose ref array exists:
the freed slot receives the old free-list head and slot 0 receives the
freed index; the evaluation stack is restored exactly. -/
theorem free_ref_eq (e : Engine) (arr : List DukVal) (K : Nat) (he : e.refs = some arr) :
    free_ref e K =
      { e with refs := some (listPutIdx
          (listPutIdx arr K ((arr[0]?).getD .undefined)) 0 (.number K)) } := by
  unfold free_ref
  rw [push_ref_array_some e arr he]
  dsimp only
  rw [he]
  rw [duk_get_prop_index_on_ref _ e.stack arr 0 rfl rfl]
  dsimp only
  rw [duk_put_prop_index_on_ref _ e.stack arr K _ rfl rfl]
  dsimp only
  rw [show dukPushVal
        { id := e.id, stack := e.stack ++ [DukVal.refArrayRef],
          refs := some (listPutIdx arr K ((arr[0]?).getD .undefined)) } (.number K)
      = { id := e.id, stack := e.stack ++ [DukVal.refArrayRef] ++ [.number K],
          refs := some (listPutIdx arr K ((arr[0]?).getD .undefined)) } from rfl]
  rw [duk_put_prop_index_on_ref _ e.stack
      (listPutIdx arr K ((arr[0]?).getD .undefined)) 0 (.number K) rfl rfl]
  simp [duk_pop]

/-- When the ref array does not exist yet, `stash_ref` first creates it
(`[0]`, the empty free list) and then proceeds exactly as on the engine with
the fresh array. -/
theorem stash_ref_none (e : Engine) (idx : Int) (he : e.refs = none) :
    stash_ref e idx = stash_ref { e with refs := some [.number 0] } idx := by
  unfold stash_ref
  rw [push_ref_array_none e he,
      push_ref_array_some { e with refs := some [.number 0] } [.number 0] rfl]

/-- Likewise for `free_ref` without an existing ref array. -/
theorem free_ref_none (e : Engine) (K : Nat) (he : e.refs = none) :
    free_ref e K = free_ref { e with refs := some [.number 0] } K := by
  unfold free_ref
  rw [push_ref_array_none e he,
      push_ref_array_some { e with refs := some [.number 0] } [.number 0] rfl]

/-- Likewise for `DukValue.push` of an Object-kind value. -/
theorem push_object_none (v : DukValue) (e : Engine) (hT : v.mType = .OBJECT)
    (he : e.refs = none) :
    v.push e = v.push { e with refs := some [.number 0] } := by
  unfold DukValue.push
  rw [hT]
  rw [push_ref_array_none e he,
      push_ref_array_some { e with refs := some [.number 0] } [.number 0] rfl]

/-- Characterization of `DukValue.push` for an Object-kind value on an
engine whose ref array exists: exactly the value stored at the slot is
pushed; the ref array itself is untouched. -/
theorem push_object_eq (v : DukValue) (e : Engine) (arr : List DukVal)
    (hT : v.mType = .OBJECT) (he : e.refs = some arr) :
    v.push e =
      { e with stack := e.stack ++ [(arr[v.mPOD.ref_array_idx]?).getD .undefined] } := by
  unfold DukValue.push
  rw [hT]
  rw [push_ref_array_some e arr he]
  dsimp only
  rw [he]
  rw [duk_get_prop_index_on_ref _ e.stack arr _ rfl rfl]
  dsimp only
  rw [duk_remove_neg2 _ e.stack DukVal.refArrayRef
      ((arr[v.mPOD.ref_array_idx]?).getD .undefined) rfl]

/-! ### Lemmas about ref-array writes -/

theorem length_listPutIdx_lt (l : List DukVal) (i : Nat) (v : DukVal) (h : i < l.length) :
    (listPutIdx l i v).length = l.length := by
  unfold listPutIdx
  rw [if_pos h]
  simp

theorem getElem?_listPutIdx_self (l : List DukVal) (i : Nat) (v : DukVal) :
    (listPutIdx l i v)[i]? = some v := by
  unfold listPutIdx
  split
  case isTrue h => simp [List.getElem?_set_self, h]
  case isFalse h =>
    have hlen2 : (l ++ List.replicate (i - l.length) DukVal.undefined).length = i := by
      simp
      omega
    calc (l ++ List.replicate (i - l.length) DukVal.undefined ++ [v])[i]?
        = (l ++ List.replicate (i - l.length) DukVal.undefined
            ++ [v])[(l ++ List.replicate (i - l.length) DukVal.undefined).length]? := by
          rw [hlen2]
      _ = some v := List.getElem?_concat_length _ _

theorem getElem?_listPutIdx_ne (l : List DukVal) (i j : Nat) (v : DukVal)
    (hne : j ≠ i) (hj : j < l.length) :
    (listPutIdx l i v)[j]? = l[j]? := by
  unfold listPutIdx
  split
  case isTrue h => rw [List.getElem?_set_ne (by omega)]
  case isFalse h =>
    rw [List.getElem?_append, if_pos (by simp; omega), List.getElem?_append, if_pos hj]

theorem dukGetUInt_natCast (K : Nat) : dukGetUInt (.number (K : ℚ)) = K := by
  simp [dukGetUInt]

/-! ### C3: the free-list slot protocol -/

/-- C3: allocation reads slot 0; a zero head means the returned slot is the
current array length (append), a nonzero head K means the returned slot is K
and slot 0 is overwritten with the value stored at slot K; freeing writes
slot 0 into the freed slot and the freed index into slot 0; consequently
allocation never returns slot 0, and after freeing K with no other free
slot the very next allocation returns exactly K. -/
theorem C3_free_list_protocol (e : Engine) (arr : List DukVal) (idx : Int) (sv : DukVal)
    (K : Nat) (he : e.refs = some arr) (hlen : 1 ≤ arr.length)
    (hv : idxVal e.stack idx = some sv) :
    (dukGetUInt ((arr[0]?).getD .undefined) = 0 → (stash_ref e idx).1 = arr.length)
    ∧ (dukGetUInt ((arr[0]?).getD .undefined) ≠ 0 →
        dukGetUInt ((arr[0]?).getD .undefined) < arr.length →
        (stash_ref e idx).1 = dukGetUInt ((arr[0]?).getD .undefined)
        ∧ ((stash_ref e idx).2.refs.getD [])[0]?
            = arr[dukGetUInt ((arr[0]?).getD .undefined)]?)
    ∧ (stash_ref e idx).1 ≠ 0
    ∧ (0 < K → K < arr.length →
        ((free_ref e K).refs.getD [])[K]? = some ((arr[0]?).getD .undefined)
        ∧ ((free_ref e K).refs.getD [])[0]? = some (.number K))
    ∧ (0 < K → K < arr.length → dukGetUInt ((arr[0]?).getD .undefined) = 0 →
        (stash_ref (free_ref e K) idx).1 = K) := by
  refine ⟨?_, ?_, ?_, ?_, ?_⟩
  · intro h0
    rw [stash_ref_eq e arr idx sv he hv, if_pos h0]
  · intro h0 hk
    rw [stash_ref_eq e arr idx sv he hv, if_neg h0]
    refine ⟨rfl, ?_⟩
    simp only [Option.getD_some]
    rw [getElem?_listPutIdx_ne _ _ 0 _ (fun hc => h0 hc.symm)
          (by rw [length_listPutIdx_lt _ _ _ (by omega)]; omega),
        getElem?_listPutIdx_self]
    rw [List.getElem?_eq_getElem hk]
    simp
  · rw [stash_ref_eq e arr idx sv he hv]
    by_cases h0 : dukGetUInt ((arr[0]?).getD .undefined) = 0
    · rw [if_pos h0]
      simp only
      omega
    · rw [if_neg h0]
      simp only
      exact h0
  · intro hK0 hK
    rw [free_ref_eq e arr K he]
    simp only [Option.getD_some]
    constructor
    · rw [getElem?_listPutIdx_ne _ _ K _ (by omega)
            (by rw [length_listPutIdx_lt _ _ _ hK]; omega),
          getElem?_listPutIdx_self]
    · rw [getElem?_listPutIdx_self]
  · intro hK0 hK h0
    rw [free_ref_eq e arr K he]
    rw [stash_ref_eq
          { e with refs := some (listPutIdx (listPutIdx arr K ((arr[0]?).getD .undefined)) 0
              (.number K)) }
          (listPutIdx (listPutIdx arr K ((arr[0]?).getD .undefined)) 0 (.number K))
          idx sv rfl hv]
    rw [show (listPutIdx (listPutIdx arr K ((arr[0]?).getD .undefined)) 0
          (.number (K : ℚ)))[0]? = some (.number (K : ℚ)) from getElem?_listPutIdx_self _ _ _]
    simp only [Option.getD_some, dukGetUInt_natCast]
    rw [if_neg (by omega)]

def c3E : Engine := ⟨1, [DukVal.object 7], some [DukVal.number 0, DukVal.object 9]⟩

def c3Arr : List DukVal := [DukVal.number 0, DukVal.object 9]

theorem C3_free_list_protocol_witness :
    (dukGetUInt ((c3Arr[0]?).getD .undefined) = 0 → (stash_ref c3E (-1)).1 = c3Arr.length)
    ∧ (dukGetUInt ((c3Arr[0]?).getD .undefined) ≠ 0 →
        dukGetUInt ((c3Arr[0]?).getD .undefined) < c3Arr.length →
        (stash_ref c3E (-1)).1 = dukGetUInt ((c3Arr[0]?).getD .undefined)
        ∧ ((stash_ref c3E (-1)).2.refs.getD [])[0]?
            = c3Arr[dukGetUInt ((c3Arr[0]?).getD .undefined)]?)
    ∧ (stash_ref c3E (-1)).1 ≠ 0
    ∧ (0 < 1 → 1 < c3Arr.length →
        ((free_ref c3E 1).refs.getD [])[1]? = some ((c3Arr[0]?).getD .undefined)
        ∧ ((free_ref c3E 1).refs.getD [])[0]? = some (.number 1))
    ∧ (0 < 1 → 1 < c3Arr.length → dukGetUInt ((c3Arr[0]?).getD .undefined) = 0 →
        (stash_ref (free_ref c3E 1) (-1)).1 = 1) :=
  C3_free_list_protocol c3E c3Arr (-1) (DukVal.object 7) 1 rfl (by decide) rfl

/-! ### C8: stack balance -/

/-- Every `DukValue.push` pushes exactly one value on the evaluation stack,
whatever the kind. -/
theorem push_stack_exists (v : DukValue) (e : Engine) :
    ∃ x, (v.push e).stack = e.stack ++ [x] := by
  obtain ⟨c, t, pod, str, rc⟩ := v
  cases t
  case OBJECT =>
    rcases he : e.refs with _ | arr
    · rw [push_object_none ⟨c, .OBJECT, pod, str, rc⟩ e rfl he,
          push_object_eq ⟨c, .OBJECT, pod, str, rc⟩ _ [.number 0] rfl rfl]
      exact ⟨_, rfl⟩
    · rw [push_object_eq ⟨c, .OBJECT, pod, str, rc⟩ e arr rfl he]
      exact ⟨_, rfl⟩
  all_goals exact ⟨_, rfl⟩

/-- `stash_ref` restores the evaluation stack exactly (all its temporary
pushes are popped). -/
theorem stash_ref_stack (e : Engine) (idx : Int) (sv : DukVal)
    (hv : idxVal e.stack idx = some sv) :
    (stash_ref e idx).2.stack = e.stack := by
  rcases he : e.refs with _ | arr
  · rw [stash_ref_none e idx he,
        stash_ref_eq { e with refs := some [.number 0] } [.number 0] idx sv rfl hv]
    split
    case isTrue => rfl
    case isFalse => rfl
  · rw [stash_ref_eq e arr idx sv he hv]
    split
    case isTrue => rfl
    case isFalse => rfl

theorem duk_remove_length (e : Engine) (idx : Int) (sv : DukVal)
    (hv : idxVal e.stack idx = some sv) :
    (duk_remove e idx).stack.length + 1 = e.stack.length := by
  unfold duk_remove
  unfold idxVal at hv
  by_cases hneg : idx < 0
  · simp only [if_pos hneg] at hv ⊢
    by_cases hn : (0 : Int) ≤ (e.stack.length : Int) + idx
    · rw [if_pos hn] at hv ⊢
      have hlt : ((e.stack.length : Int) + idx).toNat < e.stack.length :=
        (List.getElem?_eq_some.mp hv).1
      simp only [List.length_eraseIdx, if_pos hlt]
      omega
    · rw [if_neg hn] at hv
      exact absurd hv (by simp)
  · simp only [if_neg hneg] at hv ⊢
    by_cases hn : (0 : Int) ≤ idx
    · rw [if_pos hn] at hv ⊢
      have hlt : idx.toNat < e.stack.length := (List.getElem?_eq_some.mp hv).1
      simp only [List.length_eraseIdx, if_pos hlt]
      omega
    · rw [if_neg hn] at hv
      exact absurd hv (by simp)

/-- `copy_from_stack` restores the evaluation stack exactly on success. -/
theorem copy_from_stack_stack (e : Engine) (idx : Int) (mask : Nat) (sv : DukVal)
    (hv : idxVal e.stack idx = some sv) (w : DukValue) (e2 : Engine)
    (hcopy : copy_from_stack e idx mask = some (w, e2)) :
    e2.stack = e.stack := by
  unfold copy_from_stack Engine.stackAt at hcopy
  rw [hv] at hcopy
  dsimp only at hcopy
  by_cases hm : (mask &&& typeMask sv == 0) = true
  · rw [if_pos hm] at hcopy
    exact absurd hcopy (by simp)
  · rw [if_neg hm] at hcopy
    cases sv <;> dsimp only at hcopy <;>
      (injection hcopy with h1; injection h1 with h2 h3; rw [← h3]) <;>
      first
        | rfl
        | exact stash_ref_stack e idx _ hv

/-- C8: stack balance. Push adds exactly one value to the evaluation stack
(for every kind, any number of times — the engine argument is universally
quantified) and never consumes or alters the ref-array slots; a successful
`copy_from_stack` returns the evaluation stack exactly as it found it; a
successful `take_from_stack` decreases the stack depth by exactly one,
whatever the kind; `operator==` (Object case included) returns the stack
exactly as it found it, popping both values it pushed. -/
theorem C8_stack_balance (v a b : DukValue) (e : Engine) (idx : Int) (mask : Nat)
    (sv : DukVal) :
    (∃ x, (v.push e).stack = e.stack ++ [x])
    ∧ (∀ arr, e.refs = some arr → (v.push e).refs = some arr)
    ∧ (idxVal e.stack idx = some sv →
        ∀ w e2, copy_from_stack e idx mask = some (w, e2) → e2.stack = e.stack)
    ∧ (idxVal e.stack idx = some sv →
        ∀ w e2, take_from_stack e idx mask = some (w, e2) →
          e2.stack.length + 1 = e.stack.length)
    ∧ (dukValueEq a b e).2.stack = e.stack := by
  refine ⟨push_stack_exists v e, ?_, ?_, ?_, ?_⟩
  · intro arr harr
    obtain ⟨c, t, pod, str, rc⟩ := v
    cases t
    case OBJECT =>
      rw [push_object_eq ⟨c, .OBJECT, pod, str, rc⟩ e arr rfl harr]
      exact harr
    all_goals exact harr
  · intro hv w e2 hcopy
    exact copy_from_stack_stack e idx mask sv hv w e2 hcopy
  · intro hv w e2 htake
    unfold take_from_stack at htake
    rcases hc : copy_from_stack e idx mask with _ | ve
    · rw [hc] at htake
      exact absurd htake (by simp)
    · rw [hc] at htake
      dsimp only at htake
      injection htake with h1
      injection h1 with h2 h3
      have hstack : ve.2.stack = e.stack :=
        copy_from_stack_stack e idx mask sv hv ve.1 ve.2 (by rw [hc])
      have hv2 : idxVal ve.2.stack idx = some sv := by
        rw [hstack]
        exact hv
      have hrem := duk_remove_length ve.2 idx sv hv2
      rw [hstack] at hrem
      rw [← h3]
      exact hrem
  · unfold dukValueEq
    split
    case isTrue => rfl
    case isFalse hg =>
      rcases hat : a.mType
      case OBJECT =>
        obtain ⟨x, hx⟩ := push_stack_exists a e
        obtain ⟨y, hy⟩ := push_stack_exists b (a.push e)
        simp [duk_pop_2, duk_pop, hy, hx]
      all_goals rfl

def c8v : DukValue := ⟨1, .OBJECT, { ref_array_idx := 1 }, [], none⟩

theorem C8_stack_balance_witness :
    (∃ x, (c8v.push c3E).stack = c3E.stack ++ [x])
    ∧ (c8v.push c3E).refs = some c3Arr
    ∧ (∀ w e2, copy_from_stack c3E (-1) 4294967295 = some (w, e2) → e2.stack = c3E.stack)
    ∧ (∀ w e2, take_from_stack c3E (-1) 4294967295 = some (w, e2) →
        e2.stack.length + 1 = c3E.stack.length)
    ∧ (dukValueEq c8v c8v c3E).2.stack = c3E.stack := by
  have h := C8_stack_balance c8v c8v c8v c3E (-1) 4294967295 (DukVal.object 7)
  exact ⟨h.1, h.2.1 c3Arr rfl, h.2.2.1 rfl, h.2.2.2.1 rfl, h.2.2.2.2⟩

/-! ### C2: the reference-count invariant

A configuration is the collection of currently live DukValue instances
together with the world (counter heap + engine).  The invariant ties every
allocated counter to the number of live instances holding its address. -/

def sharers (vs : List DukValue) (a : Nat) : Nat :=
  vs.countP (fun v => v.mRefCount == some a)

structure Config : Type where
  vals : List DukValue
  world : World

/-- The reference-count invariant, as the code maintains it:
  (a) a non-Object value holds no counter pointer;
  (b) every allocated counter equals the number of live instances holding
      its address, and is at least 1 (a sole surviving owner of a
      previously shared reference keeps the counter at value 1);
  (c) every counter address held by a live instance is allocated;
  (d) instances holding the same counter hold the same ref-array slot;
  (e) every allocated address is below the allocator's next-address mark;
  (f) no address is allocated twice. -/
def RCInv (c : Config) : Prop :=
  (∀ v ∈ c.vals, v.mType ≠ .OBJECT → v.mRefCount = none)
  ∧ (∀ p ∈ c.world.rc.mem, p.2 = (sharers c.vals p.1 : Int) ∧ 1 ≤ p.2)
  ∧ (∀ v ∈ c.vals, ∀ a : Nat, v.mRefCount = some a → rcGet c.world.rc.mem a ≠ none)
  ∧ (∀ v ∈ c.vals, ∀ u ∈ c.vals, ∀ a : Nat,
      v.mRefCount = some a → u.mRefCount = some a →
      v.mPOD.ref_array_idx = u.mPOD.ref_array_idx)
  ∧ (∀ p ∈ c.world.rc.mem, p.1 < c.world.rc.next)
  ∧ (c.world.rc.mem.map Prod.fst).Nodup

theorem sharers_cons (x : DukValue) (vs : List DukValue) (a : Nat) :
    sharers (x :: vs) a = sharers vs a + (if x.mRefCount = some a then 1 else 0) := by
  simp [sharers, List.countP_cons]

/-! Association-list lemmas for the counter heap. -/

theorem mem_of_rcGet (m : List (Nat × Int)) (a : Nat) (c : Int)
    (h : rcGet m a = some c) : (a, c) ∈ m := by
  induction m with
  | nil => exact absurd h (by simp [rcGet])
  | cons q t ih =>
      obtain ⟨b0, c0⟩ := q
      simp only [rcGet] at h
      by_cases hab : a = b0
      · rw [if_pos hab] at h
        injection h with h2
        exact List.mem_cons.mpr (Or.inl (by rw [hab, h2]))
      · rw [if_neg hab] at h
        exact List.mem_cons.mpr (Or.inr (ih h))

theorem rcGet_isSome_of_mem (m : List (Nat × Int)) (a : Nat) (c : Int)
    (h : (a, c) ∈ m) : rcGet m a ≠ none := by
  induction m with
  | nil => cases h
  | cons q t ih =>
      obtain ⟨b0, c0⟩ := q
      simp only [rcGet]
      by_cases hab : a = b0
      · rw [if_pos hab]
        simp
      · rw [if_neg hab]
        rcases List.mem_cons.mp h with h1 | h1
        · exact absurd (congrArg Prod.fst h1) hab
        · exact ih h1

theorem rcGet_rcSet_self (m : List (Nat × Int)) (a : Nat) (n : Int)
    (h : rcGet m a ≠ none) : rcGet (rcSet m a n) a = some n := by
  induction m with
  | nil => exact absurd rfl h
  | cons q t ih =>
      obtain ⟨b0, c0⟩ := q
      simp only [rcGet, rcSet] at h ⊢
      by_cases hab : a = b0
      · rw [if_pos hab]
        simp only [rcGet]
        rw [if_pos hab]
      · rw [if_neg hab] at h
        rw [if_neg hab]
        simp only [rcGet]
        rw [if_neg hab]
        exact ih h

theorem rcGet_rcSet_ne (m : List (Nat × Int)) (a b : Nat) (n : Int) (hne : b ≠ a) :
    rcGet (rcSet m a n) b = rcGet m b := by
  induction m with
  | nil => rfl
  | cons q t ih =>
      obtain ⟨b0, c0⟩ := q
      simp only [rcSet]
      by_cases hab : a = b0
      · rw [if_pos hab]
        simp only [rcGet]
        rw [if_neg (by rw [← hab]; exact hne), if_neg (by rw [← hab]; exact hne)]
      · rw [if_neg hab]
        simp only [rcGet]
        by_cases hbq : b = b0
        · rw [if_pos hbq, if_pos hbq]
        · rw [if_neg hbq, if_neg hbq]
          exact ih

theorem rcGet_rcRemove_ne (m : List (Nat × Int)) (a b : Nat) (hne : b ≠ a) :
    rcGet (rcRemove m a) b = rcGet m b := by
  induction m with
  | nil => rfl
  | cons q t ih =>
      obtain ⟨b0, c0⟩ := q
      simp only [rcRemove]
      by_cases hab : a = b0
      · rw [if_pos hab]
        simp only [rcGet]
        rw [if_neg (by rw [← hab]; exact hne)]
      · rw [if_neg hab]
        simp only [rcGet]
        by_cases hbq : b = b0
        · rw [if_pos hbq, if_pos hbq]
        · rw [if_neg hbq, if_neg hbq]
          exact ih

theorem mem_rcSet (m : List (Nat × Int)) (a : Nat) (n : Int) (p : Nat × Int)
    (hnd : (m.map Prod.fst).Nodup) (hp : p ∈ rcSet m a n) :
    (p ∈ m ∧ p.1 ≠ a) ∨ (p = (a, n) ∧ rcGet m a ≠ none) := by
  induction m with
  | nil => cases hp
  | cons q t ih =>
      obtain ⟨b0, c0⟩ := q
      simp only [List.map_cons, List.nodup_cons] at hnd
      obtain ⟨hb0, hnd2⟩ := hnd
      simp only [rcSet] at hp
      by_cases hab : a = b0
      · rw [if_pos hab] at hp
        rcases List.mem_cons.mp hp with h1 | h1
        · right
          refine ⟨by rw [h1, hab], ?_⟩
          simp only [rcGet]
          rw [if_pos hab]
          simp
        · left
          refine ⟨List.mem_cons.mpr (Or.inr h1), ?_⟩
          intro hpa
          exact hb0 (by
            rw [← hab, ← hpa]
            exact List.mem_map.mpr ⟨p, h1, rfl⟩)
      · rw [if_neg hab] at hp
        rcases List.mem_cons.mp hp with h1 | h1
        · left
          refine ⟨List.mem_cons.mpr (Or.inl h1), ?_⟩
          rw [h1]
          exact fun hc => hab hc.symm
        · rcases ih hnd2 h1 with ⟨h2, h3⟩ | ⟨h2, h3⟩
          · exact Or.inl ⟨List.mem_cons.mpr (Or.inr h2), h3⟩
          · right
            refine ⟨h2, ?_⟩
            simp only [rcGet]
            rw [if_neg hab]
            exact h3

theorem rcRemove_subset (m : List (Nat × Int)) (a : Nat) :
    ∀ p, p ∈ rcRemove m a → p ∈ m := by
  induction m with
  | nil => intro p hp; cases hp
  | cons q t ih =>
      obtain ⟨b0, c0⟩ := q
      intro p hp
      simp only [rcRemove] at hp
      by_cases hab : a = b0
      · rw [if_pos hab] at hp
        exact List.mem_cons.mpr (Or.inr hp)
      · rw [if_neg hab] at hp
        rcases List.mem_cons.mp hp with h1 | h1
        · exact List.mem_cons.mpr (Or.inl h1)
        · exact List.mem_cons.mpr (Or.inr (ih p h1))

theorem mem_rcRemove_ne (m : List (Nat × Int)) (a : Nat) (p : Nat × Int)
    (hnd : (m.map Prod.fst).Nodup) (hp : p ∈ rcRemove m a) : p.1 ≠ a := by
  induction m with
  | nil => cases hp
  | cons q t ih =>
      obtain ⟨b0, c0⟩ := q
      simp only [List.map_cons, List.nodup_cons] at hnd
      obtain ⟨hb0, hnd2⟩ := hnd
      simp only [rcRemove] at hp
      by_cases hab : a = b0
      · rw [if_pos hab] at hp
        intro hpa
        exact hb0 (by
          rw [← hab, ← hpa]
          exact List.mem_map.mpr ⟨p, hp, rfl⟩)
      · rw [if_neg hab] at hp
        rcases List.mem_cons.mp hp with h1 | h1
        · rw [h1]
          exact fun hc => hab hc.symm
        · exact ih hnd2 h1

theorem keys_rcSet (m : List (Nat × Int)) (a : Nat) (n : Int) :
    (rcSet m a n).map Prod.fst = m.map Prod.fst := by
  induction m with
  | nil => rfl
  | cons q t ih =>
      obtain ⟨b0, c0⟩ := q
      simp only [rcSet]
      by_cases hab : a = b0
      · rw [if_pos hab]
        simp only [List.map_cons]
      · rw [if_neg hab]
        simp only [List.map_cons, ih]

theorem nodup_keys_rcRemove (m : List (Nat × Int)) (a : Nat)
    (hnd : (m.map Prod.fst).Nodup) : ((rcRemove m a).map Prod.fst).Nodup := by
  induction m with
  | nil => exact hnd
  | cons q t ih =>
      obtain ⟨b0, c0⟩ := q
      simp only [List.map_cons, List.nodup_cons] at hnd
      obtain ⟨hb0, hnd2⟩ := hnd
      simp only [rcRemove]
      by_cases hab : a = b0
      · rw [if_pos hab]
        exact hnd2
      · rw [if_neg hab]
        simp only [List.map_cons, List.nodup_cons]
        refine ⟨?_, ih hnd2⟩
        intro hc
        rcases List.mem_map.mp hc with ⟨p, hp, hfst⟩
        exact hb0 (List.mem_map.mpr ⟨p, rcRemove_subset t a p hp, hfst⟩)

theorem rcGet_append_left (m1 m2 : List (Nat × Int)) (a : Nat) (c : Int)
    (h : rcGet m1 a = some c) : rcGet (m1 ++ m2) a = some c := by
  induction m1 with
  | nil => exact absurd h (by simp [rcGet])
  | cons q t ih =>
      obtain ⟨b0, c0⟩ := q
      simp only [rcGet, List.cons_append] at h ⊢
      by_cases hab : a = b0
      · rw [if_pos hab] at h ⊢
        exact h
      · rw [if_neg hab] at h ⊢
        exact ih h

theorem rcGet_append_right (m1 m2 : List (Nat × Int)) (a : Nat)
    (h : rcGet m1 a = none) : rcGet (m1 ++ m2) a = rcGet m2 a := by
  induction m1 with
  | nil => rfl
  | cons q t ih =>
      obtain ⟨b0, c0⟩ := q
      simp only [rcGet, List.cons_append] at h ⊢
      by_cases hab : a = b0
      · rw [if_pos hab] at h
        exact absurd h (by simp)
      · rw [if_neg hab] at h ⊢
        exact ih h

/-- Adding a value that holds no counter pointer preserves the invariant. -/
theorem RCInv_cons_inert (v : DukValue) (vs : List DukValue) (w : World)
    (hrc : v.mRefCount = none) (h : RCInv ⟨vs, w⟩) : RCInv ⟨v :: vs, w⟩ := by
  obtain ⟨ha, hb, hc, hd, he, hf⟩ := h
  refine ⟨?_, ?_, ?_, ?_, he, hf⟩
  · intro u hu hT
    rcases List.mem_cons.mp hu with h1 | h1
    · rw [h1]
      exact hrc
    · exact ha u h1 hT
  · intro p hp
    obtain ⟨h1, h2⟩ := hb p hp
    refine ⟨?_, h2⟩
    rw [sharers_cons, hrc]
    simpa using h1
  · intro u hu a hua
    rcases List.mem_cons.mp hu with h1 | h1
    · rw [h1, hrc] at hua
      cases hua
    · exact hc u h1 a hua
  · intro u hu u2 hu2 a hua hua2
    rcases List.mem_cons.mp hu with h1 | h1 <;> rcases List.mem_cons.mp hu2 with h2 | h2
    · rw [h1, h2]
    · rw [h1, hrc] at hua
      cases hua
    · rw [h2, hrc] at hua2
      cases hua2
    · exact hd u h1 u2 h2 a hua hua2

/-- Dropping a value that holds no counter pointer preserves the invariant. -/
theorem RCInv_uncons_inert (v : DukValue) (vs : List DukValue) (w : World)
    (hrc : v.mRefCount = none) (h : RCInv ⟨v :: vs, w⟩) : RCInv ⟨vs, w⟩ := by
  obtain ⟨ha, hb, hc, hd, he, hf⟩ := h
  refine ⟨?_, ?_, ?_, ?_, he, hf⟩
  · intro u hu hT
    exact ha u (List.mem_cons_of_mem v hu) hT
  · intro p hp
    obtain ⟨h1, h2⟩ := hb p hp
    refine ⟨?_, h2⟩
    rw [sharers_cons, hrc] at h1
    simpa using h1
  · intro u hu a hua
    exact hc u (List.mem_cons_of_mem v hu) a hua
  · intro u hu u2 hu2 a hua hua2
    exact hd u (List.mem_cons_of_mem v hu) u2 (List.mem_cons_of_mem v hu2) a hua hua2

/-- Releasing (destroying) the first live value preserves the invariant on
the remaining values, and nulls the released value's counter pointer. -/
theorem RCInv_release (v : DukValue) (rest : List DukValue) (w : World)
    (h : RCInv ⟨v :: rest, w⟩) :
    RCInv ⟨rest, (release_ref_count v w).2⟩
    ∧ (release_ref_count v w).1.mRefCount = none := by
  obtain ⟨ha, hb, hc, hd, he, hf⟩ := h
  by_cases hT : v.mType = .OBJECT
  · rcases hrc : v.mRefCount with _ | a
    · unfold release_ref_count
      rw [if_pos hT, hrc]
      dsimp only
      exact ⟨RCInv_uncons_inert v rest w hrc ⟨ha, hb, hc, hd, he, hf⟩, rfl⟩
    · have hcne := hc v (List.mem_cons_self v rest) a hrc
      rcases hget : rcGet w.rc.mem a with _ | c0
      · exact absurd hget hcne
      · have hmem := mem_of_rcGet _ _ _ hget
        obtain ⟨hval, hpos⟩ := hb (a, c0) hmem
        have hshare : sharers (v :: rest) a = sharers rest a + 1 := by
          rw [sharers_cons, if_pos hrc]
        unfold release_ref_count
        rw [if_pos hT, hrc]
        dsimp only
        rw [hget]
        dsimp only [Option.getD_some]
        by_cases hgt : c0 > 1
        · rw [if_pos hgt]
          refine ⟨⟨?_, ?_, ?_, ?_, ?_, ?_⟩, rfl⟩
          · intro u hu ht
            exact ha u (List.mem_cons_of_mem v hu) ht
          · intro p hp
            rcases mem_rcSet w.rc.mem a (c0 - 1) p hf hp with ⟨hpm, hpne⟩ | ⟨hpe, _⟩
            · obtain ⟨h1, h2⟩ := hb p hpm
              refine ⟨?_, h2⟩
              rw [sharers_cons, hrc] at h1
              simp only [Option.some.injEq] at h1
              rw [if_neg (Ne.symm hpne)] at h1
              simpa using h1
            · rw [hpe]
              dsimp only
              constructor
              · dsimp at hval
                rw [hshare] at hval
                omega
              · omega
          · intro u hu a2 hua
            by_cases ha2 : a2 = a
            · rw [ha2, rcGet_rcSet_self w.rc.mem a (c0 - 1) hcne]
              simp
            · rw [rcGet_rcSet_ne w.rc.mem a a2 (c0 - 1) ha2]
              exact hc u (List.mem_cons_of_mem v hu) a2 hua
          · intro u hu u2 hu2 a2 hua hua2
            exact hd u (List.mem_cons_of_mem v hu) u2 (List.mem_cons_of_mem v hu2)
              a2 hua hua2
          · intro p hp
            rcases mem_rcSet w.rc.mem a (c0 - 1) p hf hp with ⟨hpm, _⟩ | ⟨hpe, _⟩
            · exact he p hpm
            · rw [hpe]
              exact he (a, c0) hmem
          · rw [keys_rcSet]
            exact hf
        · rw [if_neg hgt]
          have hc1 : c0 = 1 := by omega
          have h0 : sharers rest a = 0 := by
            dsimp at hval
            rw [hshare] at hval
            omega
          have hnone : ∀ u ∈ rest, u.mRefCount ≠ some a := by
            intro u hu hua
            have hz := List.countP_eq_zero.mp h0 u hu
            exact hz (by simp [hua])
          refine ⟨⟨?_, ?_, ?_, ?_, ?_, ?_⟩, rfl⟩
          · intro u hu ht
            exact ha u (List.mem_cons_of_mem v hu) ht
          · intro p hp
            have hpm := rcRemove_subset w.rc.mem a p hp
            have hpne := mem_rcRemove_ne w.rc.mem a p hf hp
            obtain ⟨h1, h2⟩ := hb p hpm
            refine ⟨?_, h2⟩
            rw [sharers_cons, hrc] at h1
            simp only [Option.some.injEq] at h1
            rw [if_neg (Ne.symm hpne)] at h1
            simpa using h1
          · intro u hu a2 hua
            by_cases ha2 : a2 = a
            · exact absurd (ha2 ▸ hua) (hnone u hu)
            · rw [rcGet_rcRemove_ne w.rc.mem a a2 ha2]
              exact hc u (List.mem_cons_of_mem v hu) a2 hua
          · intro u hu u2 hu2 a2 hua hua2
            exact hd u (List.mem_cons_of_mem v hu) u2 (List.mem_cons_of_mem v hu2)
              a2 hua hua2
          · intro p hp
            exact he p (rcRemove_subset w.rc.mem a p hp)
          · exact nodup_keys_rcRemove w.rc.mem a hf
  · rw [release_ref_count_not_object v w hT]
    have hrc : v.mRefCount = none := ha v (List.mem_cons_self v rest) hT
    exact ⟨RCInv_uncons_inert v rest w hrc ⟨ha, hb, hc, hd, he, hf⟩, hrc⟩

/-- Lazily allocating a fresh counter at 2 and attaching it to a copy and
to its source (both Object-kind, same slot) preserves the invariant. -/
theorem RCInv_alloc_pair (y : DukValue) (vs : List DukValue) (w : World)
    (x2 y2 : DukValue) (w2 : World)
    (h : RCInv ⟨y :: vs, w⟩)
    (hyrc : y.mRefCount = none)
    (hxT : x2.mType = .OBJECT) (hyT : y2.mType = .OBJECT)
    (hxrc : x2.mRefCount = some w.rc.next) (hyrc2 : y2.mRefCount = some w.rc.next)
    (hxpod : x2.mPOD.ref_array_idx = y2.mPOD.ref_array_idx)
    (hw2 : w2.rc.mem = w.rc.mem ++ [(w.rc.next, 2)])
    (hw2n : w2.rc.next = w.rc.next + 1) :
    RCInv ⟨x2 :: y2 :: vs, w2⟩ := by
  obtain ⟨ha, hb, hc, hd, he, hf⟩ := h
  dsimp only at ha hb hc hd he hf
  have hAfresh : rcGet w.rc.mem w.rc.next = none := by
    rcases hg : rcGet w.rc.mem w.rc.next with _ | c
    · rfl
    · exact absurd (he (w.rc.next, c) (mem_of_rcGet _ _ _ hg)) (by simp)
  have hAkeys : w.rc.next ∉ w.rc.mem.map Prod.fst := by
    intro hk
    rcases List.mem_map.mp hk with ⟨p, hp, hfst⟩
    exact absurd (he p hp) (by rw [hfst]; simp)
  have hnotin : ∀ u ∈ vs, u.mRefCount ≠ some w.rc.next := by
    intro u hu hua
    have := hc u (List.mem_cons_of_mem y hu) w.rc.next hua
    exact this hAfresh
  have hzero : sharers vs w.rc.next = 0 := by
    refine List.countP_eq_zero.mpr ?_
    intro u hu
    simp only [beq_iff_eq]
    exact hnotin u hu
  refine ⟨?_, ?_, ?_, ?_, ?_, ?_⟩
  · intro u hu ht
    rcases List.mem_cons.mp hu with h1 | h1
    · exact absurd (h1 ▸ hxT) ht
    rcases List.mem_cons.mp h1 with h2 | h2
    · exact absurd (h2 ▸ hyT) ht
    · exact ha u (List.mem_cons_of_mem y h2) ht
  · intro p hp
    rw [hw2] at hp
    rcases List.mem_append.mp hp with hpm | hpe
    · have hpne : p.1 ≠ w.rc.next := by
        have := he p hpm
        omega
      obtain ⟨h1, h2⟩ := hb p hpm
      refine ⟨?_, h2⟩
      rw [sharers_cons, hyrc] at h1
      simp only [if_neg (by simp : ¬ (none : Option Nat) = some p.1), Nat.add_zero] at h1
      rw [sharers_cons, sharers_cons, hxrc, hyrc2]
      simp only [Option.some.injEq, if_neg (Ne.symm hpne), Nat.add_zero]
      simpa using h1
    · have hpe2 : p = (w.rc.next, 2) := by simpa using hpe
      rw [hpe2]
      refine ⟨?_, by simp⟩
      dsimp only
      rw [sharers_cons, sharers_cons, if_pos hxrc, if_pos hyrc2, hzero]
      simp
  · intro u hu a hua
    rcases List.mem_cons.mp hu with h1 | h1
    · have : a = w.rc.next := by
        rw [h1, hxrc] at hua
        injection hua with h2
        exact h2.symm
      rw [this, hw2, rcGet_append_right _ _ _ hAfresh]
      simp [rcGet]
    · rcases List.mem_cons.mp h1 with h2 | h2
      · have : a = w.rc.next := by
          rw [h2, hyrc2] at hua
          injection hua with h3
          exact h3.symm
        rw [this, hw2, rcGet_append_right _ _ _ hAfresh]
        simp [rcGet]
      · have hne := hc u (List.mem_cons_of_mem y h2) a hua
        rcases hg : rcGet w.rc.mem a with _ | c
        · exact absurd hg hne
        · rw [hw2, rcGet_append_left _ _ _ _ hg]
          simp
  · intro u hu u2 hu2 a hua hua2
    rcases List.mem_cons.mp hu with h1 | h1 <;>
      [skip; rcases List.mem_cons.mp h1 with h1a | h1a] <;>
      rcases List.mem_cons.mp hu2 with h2 | h2 <;>
      [skip; rcases List.mem_cons.mp h2 with h2a | h2a; skip;
       rcases List.mem_cons.mp h2 with h2a | h2a; skip;
       rcases List.mem_cons.mp h2 with h2a | h2a]
    · rw [h1, h2]
    · rw [h1, h2a]
      exact hxpod
    · have : a = w.rc.next := by
        rw [h1, hxrc] at hua
        injection hua with h3
        exact h3.symm
      exact absurd (this ▸ hua2) (hnotin u2 h2a)
    · rw [h1a, h2]
      exact hxpod.symm
    · rw [h1a, h2a]
    · have : a = w.rc.next := by
        rw [h1a, hyrc2] at hua
        injection hua with h3
        exact h3.symm
      exact absurd (this ▸ hua2) (hnotin u2 h2a)
    · have : a = w.rc.next := by
        rw [h2, hxrc] at hua2
        injection hua2 with h3
        exact h3.symm
      exact absurd (this ▸ hua) (hnotin u h1a)
    · have : a = w.rc.next := by
        rw [h2a, hyrc2] at hua2
        injection hua2 with h3
        exact h3.symm
      exact absurd (this ▸ hua) (hnotin u h1a)
    · exact hd u (List.mem_cons_of_mem y h1a) u2 (List.mem_cons_of_mem y h2a) a hua hua2
  · intro p hp
    rw [hw2] at hp
    rw [hw2n]
    rcases List.mem_append.mp hp with hpm | hpe
    · have := he p hpm
      omega
    · have hpe2 : p = (w.rc.next, 2) := by simpa using hpe
      rw [hpe2]
      simp
  · rw [hw2]
    rw [List.map_append]
    simp only [List.map_cons, List.map_nil]
    rw [List.nodup_append]
    exact ⟨hf, List.nodup_singleton _, by simpa using hAkeys⟩

/-- Attaching an already-allocated shared counter to a new copy and
incrementing it preserves the invariant. -/
theorem RCInv_incr_pair (y : DukValue) (vs : List DukValue) (w : World) (a : Nat) (c0 : Int)
    (x2 : DukValue) (w2 : World)
    (h : RCInv ⟨y :: vs, w⟩)
    (hyrc : y.mRefCount = some a)
    (hget : rcGet w.rc.mem a = some c0)
    (hxT : x2.mType = .OBJECT)
    (hxrc : x2.mRefCount = some a)
    (hxpod : x2.mPOD.ref_array_idx = y.mPOD.ref_array_idx)
    (hw2 : w2.rc.mem = rcSet w.rc.mem a (c0 + 1))
    (hw2n : w2.rc.next = w.rc.next) :
    RCInv ⟨x2 :: y :: vs, w2⟩ := by
  obtain ⟨ha, hb, hc, hd, he, hf⟩ := h
  dsimp only at ha hb hc hd he hf
  have hmem := mem_of_rcGet _ _ _ hget
  obtain ⟨hval, hpos⟩ := hb (a, c0) hmem
  dsimp only at hval
  refine ⟨?_, ?_, ?_, ?_, ?_, ?_⟩
  · intro u hu ht
    rcases List.mem_cons.mp hu with h1 | h1
    · exact absurd (h1 ▸ hxT) ht
    · exact ha u h1 ht
  · intro p hp
    rw [hw2] at hp
    rcases mem_rcSet w.rc.mem a (c0 + 1) p hf hp with ⟨hpm, hpne⟩ | ⟨hpe, _⟩
    · obtain ⟨h1, h2⟩ := hb p hpm
      refine ⟨?_, h2⟩
      rw [sharers_cons, hxrc]
      simp only [Option.some.injEq, if_neg (Ne.symm hpne), Nat.add_zero]
      exact h1
    · rw [hpe]
      refine ⟨?_, by omega⟩
      dsimp only
      rw [sharers_cons, if_pos hxrc, hval]
      push_cast
      ring
  · intro u hu a2 hua
    have hsetne : rcGet w2.rc.mem a ≠ none := by
      rw [hw2, rcGet_rcSet_self w.rc.mem a (c0 + 1) (by rw [hget]; simp)]
      simp
    rcases List.mem_cons.mp hu with h1 | h1
    · have : a2 = a := by
        rw [h1, hxrc] at hua
        injection hua with h2
        exact h2.symm
      rw [this]
      exact hsetne
    · by_cases ha2 : a2 = a
      · rw [ha2]
        exact hsetne
      · rw [hw2, rcGet_rcSet_ne w.rc.mem a a2 (c0 + 1) ha2]
        exact hc u h1 a2 hua
  · intro u hu u2 hu2 a2 hua hua2
    rcases List.mem_cons.mp hu with h1 | h1 <;> rcases List.mem_cons.mp hu2 with h2 | h2
    · rw [h1, h2]
    · have haa : a2 = a := by
        rw [h1, hxrc] at hua
        injection hua with h3
        exact h3.symm
      rw [h1]
      exact hxpod.trans (hd y (List.mem_cons_self y vs) u2 h2 a (haa ▸ hyrc) (haa ▸ hua2))
    · have haa : a2 = a := by
        rw [h2, hxrc] at hua2
        injection hua2 with h3
        exact h3.symm
      rw [h2]
      exact (hd y (List.mem_cons_self y vs) u h1 a (haa ▸ hyrc) (haa ▸ hua)).symm.trans
        hxpod.symm
    · exact hd u h1 u2 h2 a2 hua hua2
  · intro p hp
    rw [hw2] at hp
    rw [hw2n]
    rcases mem_rcSet w.rc.mem a (c0 + 1) p hf hp with ⟨hpm, _⟩ | ⟨hpe, _⟩
    · exact he p hpm
    · rw [hpe]
      exact he (a, c0) hmem
  · rw [hw2, keys_rcSet]
    exact hf

/-- Copy-assignment preserves the invariant (the destination is released
first; the source either gets the lazily allocated counter attached — the
`const_cast` in the source — or its counter is incremented). -/
theorem RCInv_assign (v rhs : DukValue) (rest : List DukValue) (w : World)
    (h : RCInv ⟨v :: rhs :: rest, w⟩) :
    RCInv ⟨(dukAssign v rhs w).1 :: (dukAssign v rhs w).2.1 :: rest,
      (dukAssign v rhs w).2.2⟩ := by
  obtain ⟨h1, hv1⟩ := RCInv_release v (rhs :: rest) w h
  unfold dukAssign
  dsimp only
  by_cases hT : rhs.mType = .OBJECT
  · rw [if_pos hT, if_neg (show ¬ rhs.mType = .STRING by simp [hT])]
    rcases hrc : rhs.mRefCount with _ | a
    · dsimp only [RCHeap.alloc]
      exact RCInv_alloc_pair rhs rest (release_ref_count v w).2 _ _ _ h1 hrc hT hT
        rfl rfl rfl rfl rfl
    · have hcne := (h1.2.2.1) rhs (List.mem_cons_self rhs rest) a hrc
      rcases hget : rcGet (release_ref_count v w).2.rc.mem a with _ | c0
      · exact absurd hget hcne
      · dsimp only
        rw [hget]
        dsimp only [Option.getD_some]
        exact RCInv_incr_pair rhs rest (release_ref_count v w).2 a c0 _ _ h1 hrc hget hT
          rfl rfl rfl rfl
  · rw [if_neg hT]
    refine RCInv_cons_inert _ _ _ ?_ h1
    split
    · exact hv1
    · exact hv1

/-- Move construction preserves the invariant: the destination takes over
the counter address, the source is left with none, and no counter value is
touched. -/
theorem RCInv_move (src : DukValue) (rest : List DukValue) (w : World)
    (h : RCInv ⟨src :: rest, w⟩) :
    RCInv ⟨(dukMoveCtor src).1 :: (dukMoveCtor src).2 :: rest, w⟩ := by
  obtain ⟨ha, hb, hc, hd, he, hf⟩ := h
  dsimp only at ha hb hc hd he hf
  unfold dukMoveCtor
  dsimp only
  refine ⟨?_, ?_, ?_, ?_, he, hf⟩
  · intro u hu ht
    rcases List.mem_cons.mp hu with h1 | h1
    · rw [h1] at ht ⊢
      exact ha src (List.mem_cons_self src rest) ht
    rcases List.mem_cons.mp h1 with h2 | h2
    · rw [h2]
    · exact ha u (List.mem_cons_of_mem src h2) ht
  · intro p hp
    obtain ⟨h1, h2⟩ := hb p hp
    refine ⟨?_, h2⟩
    rw [sharers_cons] at h1
    rw [sharers_cons, sharers_cons]
    dsimp only
    simp only [if_neg (by simp : ¬ (none : Option Nat) = some p.1), Nat.add_zero]
    exact h1
  · intro u hu a hua
    rcases List.mem_cons.mp hu with h1 | h1
    · rw [h1] at hua
      dsimp only at hua
      exact hc src (List.mem_cons_self src rest) a hua
    rcases List.mem_cons.mp h1 with h2 | h2
    · rw [h2] at hua
      dsimp only at hua
      cases hua
    · exact hc u (List.mem_cons_of_mem src h2) a hua
  · intro u hu u2 hu2 a hua hua2
    rcases List.mem_cons.mp hu with h1 | h1 <;>
      [skip; rcases List.mem_cons.mp h1 with h1a | h1a] <;>
      rcases List.mem_cons.mp hu2 with h2 | h2 <;>
      [skip; rcases List.mem_cons.mp h2 with h2a | h2a; skip;
       rcases List.mem_cons.mp h2 with h2a | h2a; skip;
       rcases List.mem_cons.mp h2 with h2a | h2a]
    · rw [h1, h2]
    · rw [h2a] at hua2
      dsimp only at hua2
      cases hua2
    · rw [h1] at hua ⊢
      dsimp only at hua ⊢
      exact hd src (List.mem_cons_self src rest) u2 (List.mem_cons_of_mem src h2a) a hua hua2
    · rw [h1a] at hua
      dsimp only at hua
      cases hua
    · rw [h1a] at hua
      dsimp only at hua
      cases hua
    · rw [h1a] at hua
      dsimp only at hua
      cases hua
    · rw [h2] at hua2 ⊢
      dsimp only at hua2 ⊢
      exact hd u (List.mem_cons_of_mem src h1a) src (List.mem_cons_self src rest) a hua hua2
    · rw [h2a] at hua2
      dsimp only at hua2
      cases hua2
    · exact hd u (List.mem_cons_of_mem src h1a) u2 (List.mem_cons_of_mem src h2a) a hua hua2

/-- Copy construction is default construction followed by assignment. -/
theorem RCInv_copyCtor (rhs : DukValue) (rest : List DukValue) (w : World)
    (h : RCInv ⟨rhs :: rest, w⟩) :
    RCInv ⟨(dukCopyCtor rhs w).1 :: (dukCopyCtor rhs w).2.1 :: rest,
      (dukCopyCtor rhs w).2.2⟩ :=
  RCInv_assign DukValue.initial rhs rest w (RCInv_cons_inert _ _ _ rfl h)

theorem RCInv_assignSelf (v : DukValue) (rest : List DukValue) (w : World)
    (h : RCInv ⟨v :: rest, w⟩) :
    RCInv ⟨(dukAssignSelf v w).1 :: rest, (dukAssignSelf v w).2⟩ := by
  rw [dukAssignSelf_eq_release]
  obtain ⟨h1, h2⟩ := RCInv_release v rest w h
  exact RCInv_cons_inert _ _ _ h2 h1

theorem RCInv_destroy (v : DukValue) (rest : List DukValue) (w : World)
    (h : RCInv ⟨v :: rest, w⟩) :
    RCInv ⟨rest, v.destroy w⟩ :=
  (RCInv_release v rest w h).1

instance RCInv.instDecidable (c : Config) : Decidable (RCInv c) := by
  unfold RCInv
  infer_instance

/- A two-owner scenario: A is captured from the stack, B = copy(A), then A
is destroyed.  B is now the sole owner. -/

def c2Cap : DukValue × Engine :=
  (copy_from_stack ⟨1, [DukVal.object 7], none⟩ (-1) 4294967295).getD
    (DukValue.initial, ⟨1, [], none⟩)

def c2A : DukValue := c2Cap.1

def c2W0 : World := ⟨c2Cap.2, ⟨[], 0⟩⟩

def c2CopyB : DukValue × DukValue × World := dukCopyCtor c2A c2W0

def c2B : DukValue := c2CopyB.1

def c2AfterA : World := c2CopyB.2.1.destroy c2CopyB.2.2

/-- C2 counterexample: the claim asserts the counter is removed — not kept
at value 1 — once the value is down to sole ownership.  In the code, after
B = copy(A) and destroying A, the sole surviving owner B still holds the
counter, it is still allocated, and its value is 1 (exactly one sharer):
the counter is kept at 1, not removed. -/
theorem C2_refcount_invariant_counterexample :
    c2B.mType = .OBJECT
    ∧ c2B.mRefCount = some 0
    ∧ rcGet c2AfterA.rc.mem 0 = some 1
    ∧ sharers [c2B] 0 = 1 := by
  decide

/-- C2 (amended): for every ScriptValue, if the kind is not Object the
ref_count is absent; if the kind is Object and ref_count is present, its
value equals the number of ScriptValue instances currently sharing that
slot and is at least 1 — after one of two sharers releases, the surviving
sole owner keeps the counter allocated at value 1; it is deallocated only
when the last sharer releases.  This invariant (`RCInv`, which states
exactly these clauses for every live instance and every allocated counter)
is preserved by every copy construction, move construction, assignment,
self-assignment, and release (destruction). -/
theorem C2_refcount_invariant_amended (rest : List DukValue) (w : World)
    (v rhs src : DukValue) :
    (RCInv ⟨rhs :: rest, w⟩ →
      RCInv ⟨(dukCopyCtor rhs w).1 :: (dukCopyCtor rhs w).2.1 :: rest,
        (dukCopyCtor rhs w).2.2⟩)
    ∧ (RCInv ⟨src :: rest, w⟩ →
      RCInv ⟨(dukMoveCtor src).1 :: (dukMoveCtor src).2 :: rest, w⟩)
    ∧ (RCInv ⟨v :: rhs :: rest, w⟩ →
      RCInv ⟨(dukAssign v rhs w).1 :: (dukAssign v rhs w).2.1 :: rest,
        (dukAssign v rhs w).2.2⟩)
    ∧ (RCInv ⟨v :: rest, w⟩ →
      RCInv ⟨(dukAssignSelf v w).1 :: rest, (dukAssignSelf v w).2⟩)
    ∧ (RCInv ⟨v :: rest, w⟩ → RCInv ⟨rest, v.destroy w⟩) :=
  ⟨RCInv_copyCtor rhs rest w,
   RCInv_move src rest w,
   RCInv_assign v rhs rest w,
   RCInv_assignSelf v rest w,
   RCInv_destroy v rest w⟩

theorem C2_refcount_invariant_amended_witness :
    RCInv ⟨[c2B], c2AfterA⟩ ∧ RCInv ⟨[], c2B.destroy c2AfterA⟩ :=
  ⟨by decide,
   (C2_refcount_invariant_amended [] c2AfterA c2B c2B c2B).2.2.2.2 (by decide)⟩
